import Mathlib

/-!
Verification development for the reduce core of the dandi_s3_log_parser
repository.

The source is shallow-embedded over lists of characters: a text file is its
list of bytes read as characters (the raw S3 log corpus is ASCII, so one byte
is one character and Python string slicing, UTF-8 encoding and decoding are
all the identity on the byte view), and the only line terminator modelled is
the linefeed character, the terminator of the S3 server-access-log format.
Python operations used by the source (str.split with an explicit separator,
str.splitlines, str.isdigit, int(), datetime.strptime, defaultdict lookup)
are each given a definition mirroring their semantics on this character model.
-/

set_option maxRecDepth 8000

namespace DandiS3

/-- Character-list view of a Python string / byte buffer. -/
abbrev Str := List Char

/-- Convenience conversion from a Lean string literal to the model. -/
def lit (s : String) : Str := s.data

/-! ## Python primitives -/

/-- Characters other than the linefeed terminator. -/
def isNotNl (c : Char) : Bool := c ≠ '\n'

/-- Recursion core of splitlinesL; every step consumes at least one
character, so fuel equal to the length is always sufficient. -/
def splitlinesGo : Nat → Str → List Str
  | 0, _ => []
  | _ + 1, [] => []
  | fuel + 1, c :: cs =>
    let f := (c :: cs).takeWhile isNotNl
    f :: splitlinesGo fuel ((c :: cs).drop (f.length + 1))

/-- Python str.splitlines restricted to linefeed terminators: split on every
linefeed; a trailing segment after the final linefeed is kept only when it is
non-empty, so a trailing linefeed does not create an empty final line. -/
def splitlinesL (s : Str) : List Str := splitlinesGo s.length s

/-- Index of the first position at or after the accumulator offset where the
separator is a leading block of the remaining characters. -/
def firstMatchIdx (sep : Str) : Str → Nat → Option Nat
  | [], _ => none
  | c :: rest, acc =>
    if sep.isPrefixOf (c :: rest) then some acc
    else firstMatchIdx sep rest (acc + 1)

/-- Python s.split(sep) for a non-empty separator: non-overlapping matches
scanned left to right, empty pieces kept.  Implemented with explicit fuel;
each step consumes at least one character of the scanned suffix. -/
def pySplitOnAux (sep : Str) : Nat → Str → List Str
  | 0, s => [s]
  | fuel + 1, s =>
    match firstMatchIdx sep s 0 with
    | none => [s]
    | some i => s.take i :: pySplitOnAux sep fuel (s.drop (i + sep.length))

def pySplitOn (sep s : Str) : List Str :=
  pySplitOnAux sep (s.length + 1) s

/-- Python s.split(" "): split on every single space, empty pieces kept. -/
def pySplitSpace (s : Str) : List Str := pySplitOn [' '] s

/-- Python sep.join(xs). -/
def pyJoin (sep : Str) : List Str → Str
  | [] => []
  | [x] => x
  | x :: y :: rest => x ++ sep ++ pyJoin sep (y :: rest)

/-- Python str.isdigit on ASCII content: non-empty and all decimal digits. -/
def pyIsDigit (s : Str) : Bool :=
  !s.isEmpty && s.all Char.isDigit

/-- Python s[a:b] for non-negative bounds. -/
def pySlice (s : Str) (a b : Nat) : Str := (s.drop a).take (b - a)

/-- Whitespace stripped by Python int() before reading the number. -/
def isPyWs (c : Char) : Bool := c = ' ' || c = '\t' || c = '\n' || c = '\r'

/-- Digit run to a numeric value, failing on a non-digit or an empty run.
Numeric separators (underscores) never occur in S3 log numeric fields and are
not modelled. -/
def digitsToNat : Str → Option Nat
  | [] => none
  | ds =>
    if ds.all Char.isDigit then
      some (ds.foldl (fun acc c => acc * 10 + (c.toNat - '0'.toNat)) 0)
    else none

/-- Python int(str): strip surrounding whitespace, optional sign, digit run. -/
def pyInt (s : Str) : Option Int :=
  let t := (s.dropWhile isPyWs).reverse.dropWhile isPyWs |>.reverse
  match t with
  | [] => none
  | c :: ds =>
    if c = '+' then (digitsToNat ds).map Int.ofNat
    else if c = '-' then (digitsToNat ds).map (fun n => -(Int.ofNat n))
    else (digitsToNat (c :: ds)).map Int.ofNat

/-- Decimal rendering of an integer, as Python str(int). -/
def intToStr (i : Int) : Str :=
  if i < 0 then '-' :: Nat.toDigits 10 i.natAbs else Nat.toDigits 10 i.toNat

/-! ## Buffered text reader (_buffered_text_reader.py)

BufferedTextReader reads the file in binary windows of
buffer_size_in_bytes = int(maximum_buffer_size_in_bytes / 3) bytes, decodes,
splits into lines, and yields all but a possibly partial last piece, seeking
back to the start of that piece for the next window. -/

/-- Failures BufferedTextReader.__next__ can raise: the explicit oversize-line
ValueError, and the IndexError reached when the read size is zero so the
split of the empty decoded window has no last element. -/
inductive ReaderErr where
  | oversize
  | index
  deriving DecidableEq, Repr

/-- Result of one __next__ call. -/
inductive ReaderStep where
  | stop
  | yield (batch : List Str) (newOffset : Nat)
  | err (e : ReaderErr)
  deriving DecidableEq, Repr

/-- One BufferedTextReader.__next__ call at a given byte offset, with read
size bufferSize bytes over an immutable file. -/
def readerNext (file : Str) (bufferSize offset : Nat) : ReaderStep :=
  if file.length ≤ offset then .stop
  else
    let chunk := (file.drop offset).take bufferSize
    let split := splitlinesL chunk
    if chunk.length < bufferSize then .yield split file.length
    else
      match split with
      | [] => .err .index
      | _ =>
        let buffer := split.dropLast
        let lastLine := split.getLastD []
        if buffer = [] ∧ lastLine ≠ [] then .err .oversize
        else if chunk.getLast? = some '\n' then .yield buffer (offset + bufferSize)
        else .yield buffer (offset + bufferSize - lastLine.length)

/-- Iterate __next__ until StopIteration or an exception, collecting the
yielded buffers in order.  Fuel bounds the number of calls; the entry point
below supplies enough for any run. -/
def readerRun (file : Str) (bufferSize : Nat) : Nat → Nat → List (List Str) × Option ReaderErr
  | 0, _ => ([], none)
  | fuel + 1, offset =>
    match readerNext file bufferSize offset with
    | .stop => ([], none)
    | .err e => ([], some e)
    | .yield batch newOffset =>
      let rest := readerRun file bufferSize fuel newOffset
      (batch :: rest.1, rest.2)

/-- Full iteration of BufferedTextReader over a file with the given
maximum_buffer_size_in_bytes; the read size is its third, rounded down. -/
def bufferedRead (file : Str) (maximumBufferSizeInBytes : Nat) : List (List Str) × Option ReaderErr :=
  readerRun file (maximumBufferSizeInBytes / 3) (file.length + 1) 0

/-- Suffix form of the reader iteration: the state is the not-yet-consumed
tail of the file rather than a byte offset.  Proofs run on this form; it is
proved pointwise equal to readerRun below. -/
def readerRunS (bufferSize : Nat) : Nat → Str → List (List Str) × Option ReaderErr
  | 0, _ => ([], none)
  | fuel + 1, s =>
    if s = [] then ([], none)
    else
      let chunk := s.take bufferSize
      let split := splitlinesL chunk
      if chunk.length < bufferSize then ([split], none)
      else
        match split with
        | [] => ([], some .index)
        | _ =>
          let buffer := split.dropLast
          let lastLine := split.getLastD []
          if buffer = [] ∧ lastLine ≠ [] then ([], some .oversize)
          else if chunk.getLast? = some '\n' then
            let rest := readerRunS bufferSize fuel (s.drop bufferSize)
            (buffer :: rest.1, rest.2)
          else
            let rest := readerRunS bufferSize fuel (s.drop (bufferSize - lastLine.length))
            (buffer :: rest.1, rest.2)

/-- Recursion core of existsOversize, with fuel like splitlinesGo. -/
def existsOversizeGo (bufferSize : Nat) : Nat → Str → Bool
  | 0, _ => false
  | _ + 1, [] => false
  | fuel + 1, c :: cs =>
    let f := (c :: cs).takeWhile isNotNl
    if bufferSize ≤ f.length then true
    else if f.length + 1 = bufferSize ∧ f ≠ [] ∧ f.length < (c :: cs).length then true
    else existsOversizeGo bufferSize fuel ((c :: cs).drop (f.length + 1))

/-- Characterization of the inputs on which the reader raises its oversize
ValueError: some line of the file whose full byte span, the line content
together with its linefeed terminator when one is present, is at least the
read size, so that a read starting at that line can never make progress.
The empty final batch degeneracies make the bare content length alone the
wrong measure; this predicate is proved to match the reader exactly. -/
def existsOversize (bufferSize : Nat) (s : Str) : Bool :=
  existsOversizeGo bufferSize s.length s

/-! ## Timestamp handling (datetime.strptime / isoformat)

The source parses timestamps with the literal formats
"[%d/%b/%Y:%H:%M:%S" (fast path) and "%d/%b/%Y:%H:%M:%S" (slow path).
Python strptime compiles each directive to a regex alternation that prefers a
two-digit match and backtracks to one digit, requires exactly four digits for
the year, matches the month abbreviation case-insensitively, demands that the
whole string is consumed, and finally validates the calendar date. -/

structure PyDateTime where
  year : Nat
  month : Nat
  day : Nat
  hour : Nat
  minute : Nat
  second : Nat
  deriving DecidableEq, Repr

/-- Numeric field of one or two digits with the value bounds of the strptime
directive regexes, two digits preferred, backtracking into the continuation
exactly as the compiled regex does. -/
def parseNum2or1 (lowOne : Nat) (hiTwo : Nat) (s : Str) (k : Nat → Str → Option PyDateTime) :
    Option PyDateTime :=
  match s with
  | c1 :: c2 :: rest =>
    if c1.isDigit && c2.isDigit then
      let v2 := (c1.toNat - '0'.toNat) * 10 + (c2.toNat - '0'.toNat)
      if lowOne ≤ v2 ∧ v2 ≤ hiTwo then
        match k v2 rest with
        | some dt => some dt
        | none =>
          let v1 := c1.toNat - '0'.toNat
          if lowOne ≤ v1 then k v1 (c2 :: rest) else none
      else
        let v1 := c1.toNat - '0'.toNat
        if lowOne ≤ v1 then k v1 (c2 :: rest) else none
    else if c1.isDigit then
      let v1 := c1.toNat - '0'.toNat
      if lowOne ≤ v1 then k v1 (c2 :: rest) else none
    else none
  | [c1] =>
    if c1.isDigit then
      let v1 := c1.toNat - '0'.toNat
      if lowOne ≤ v1 then k v1 [] else none
    else none
  | [] => none

/-- Exactly four digits, as the %Y directive regex. -/
def parseYear4 (s : Str) (k : Nat → Str → Option PyDateTime) : Option PyDateTime :=
  match s with
  | c1 :: c2 :: c3 :: c4 :: rest =>
    if c1.isDigit && c2.isDigit && c3.isDigit && c4.isDigit then
      k (((c1.toNat - '0'.toNat) * 10 + (c2.toNat - '0'.toNat)) * 100 +
         ((c3.toNat - '0'.toNat) * 10 + (c4.toNat - '0'.toNat))) rest
    else none
  | _ => none

def monthAbbrevs : List (Str × Nat) :=
  [(lit "jan", 1), (lit "feb", 2), (lit "mar", 3), (lit "apr", 4), (lit "may", 5),
   (lit "jun", 6), (lit "jul", 7), (lit "aug", 8), (lit "sep", 9), (lit "oct", 10),
   (lit "nov", 11), (lit "dec", 12)]

/-- Case-insensitive three-letter month abbreviation, as the %b directive. -/
def parseMonthAbbrev (s : Str) (k : Nat → Str → Option PyDateTime) : Option PyDateTime :=
  let low := (s.take 3).map Char.toLower
  match (monthAbbrevs.find? (fun e => e.1 = low)).map (·.2) with
  | some m => k m (s.drop 3)
  | none => none

def expectChar (c : Char) (s : Str) (k : Str → Option PyDateTime) : Option PyDateTime :=
  match s with
  | d :: rest => if d = c then k rest else none
  | [] => none

def isLeapYear (y : Nat) : Bool :=
  (y % 4 = 0 && y % 100 ≠ 0) || y % 400 = 0

def daysInMonth (y m : Nat) : Nat :=
  if m = 2 then (if isLeapYear y then 29 else 28)
  else if m = 4 ∨ m = 6 ∨ m = 9 ∨ m = 11 then 30
  else 31

/-- Calendar validity applied by the datetime constructor after the regex
match: MINYEAR is 1, and the day must exist in the month. -/
def validDate (dt : PyDateTime) : Bool :=
  1 ≤ dt.year && 1 ≤ dt.day && dt.day ≤ daysInMonth dt.year dt.month

/-- datetime.strptime(s, "%d/%b/%Y:%H:%M:%S"), as an Option: none is the
ValueError raised on any mismatch, leftover characters, or invalid date. -/
def strptimeDmbY (s : Str) : Option PyDateTime :=
  parseNum2or1 1 31 s fun day r1 =>
  expectChar '/' r1 fun r2 =>
  parseMonthAbbrev r2 fun month r3 =>
  expectChar '/' r3 fun r4 =>
  parseYear4 r4 fun year r5 =>
  expectChar ':' r5 fun r6 =>
  parseNum2or1 0 23 r6 fun hour r7 =>
  expectChar ':' r7 fun r8 =>
  parseNum2or1 0 59 r8 fun minute r9 =>
  expectChar ':' r9 fun r10 =>
  parseNum2or1 0 59 r10 fun second r11 =>
  match r11 with
  | [] =>
    let dt : PyDateTime := ⟨year, month, day, hour, minute, second⟩
    if validDate dt then some dt else none
  | _ => none

/-- datetime.strptime(s, "[%d/%b/%Y:%H:%M:%S"): the leading bracket is a
literal character of the format. -/
def strptimeBracketDmbY (s : Str) : Option PyDateTime :=
  match s with
  | '[' :: rest => strptimeDmbY rest
  | _ => none

def pad2 (n : Nat) : Str :=
  if n < 10 then '0' :: Nat.toDigits 10 n else Nat.toDigits 10 n

def pad4 (n : Nat) : Str :=
  if n < 10 then '0' :: '0' :: '0' :: Nat.toDigits 10 n
  else if n < 100 then '0' :: '0' :: Nat.toDigits 10 n
  else if n < 1000 then '0' :: Nat.toDigits 10 n
  else Nat.toDigits 10 n

/-- datetime.isoformat() at second precision. -/
def isoformat (dt : PyDateTime) : Str :=
  pad4 dt.year ++ '-' :: pad2 dt.month ++ '-' :: pad2 dt.day ++
    'T' :: pad2 dt.hour ++ ':' :: pad2 dt.minute ++ ':' :: pad2 dt.second

/-! ## Raw-line tokenization (_s3_log_line_parser.py)

The regex r-quote ([^quote]+) quote | bracket ([^bracket]+) bracket | ([^ ]+)
is applied with findall: at each scan position the first alternative that
matches wins, a quoted or bracketed block requires non-empty content and a
closing delimiter, and otherwise a maximal run of non-space characters is
taken.  The first non-empty capture group of each match is collected. -/

def s3LogTokenizeAux : Nat → Str → List Str
  | 0, _ => []
  | _ + 1, [] => []
  | fuel + 1, c :: rest =>
    if c = ' ' then s3LogTokenizeAux fuel rest
    else if c = '"' then
      let content := rest.takeWhile (· ≠ '"')
      if content ≠ [] ∧ content.length < rest.length then
        content :: s3LogTokenizeAux fuel (rest.drop (content.length + 1))
      else
        let run := (c :: rest).takeWhile (· ≠ ' ')
        run :: s3LogTokenizeAux fuel ((c :: rest).drop run.length)
    else if c = '[' then
      let content := rest.takeWhile (· ≠ ']')
      if content ≠ [] ∧ content.length < rest.length then
        content :: s3LogTokenizeAux fuel (rest.drop (content.length + 1))
      else
        let run := (c :: rest).takeWhile (· ≠ ' ')
        run :: s3LogTokenizeAux fuel ((c :: rest).drop run.length)
    else
      let run := (c :: rest).takeWhile (· ≠ ' ')
      run :: s3LogTokenizeAux fuel ((c :: rest).drop run.length)

def s3LogTokenize (s : Str) : List Str := s3LogTokenizeAux s.length s

/-- All start indices of a substring, overlapping occurrences included, with
the hard iteration bound of 10^6: the scan raises StopIteration when the
running start position reaches the bound. -/
def findAllSubstrIdx (s sub : Str) : Except Unit (List Nat) :=
  let idxs := (List.range s.length).filter (fun i => sub.isPrefixOf (s.drop i))
  if idxs.any (fun i => 1000000 ≤ i + 1) then .error () else .ok idxs

/-- Embedded-quote repair (_attempt_to_remove_quotes): rebuild the line with
every interior quote block replaced by a dash.  The inl result models the
code path that returns the unrepaired token list, on which the subsequent
findall call raises a TypeError. -/
def attemptToRemoveQuotes (rawLine : Str) (badParsed : List Str) :
    Except Unit (Sum (List Str) Str) := do
  let starting ← findAllSubstrIdx rawLine (lit " \"")
  let ending ← findAllSubstrIdx rawLine (lit "\" ")
  if starting.length = 0 then return .inl badParsed
  else if starting.length ≠ ending.length then return .inl badParsed
  else
    let base := pySlice rawLine 0 (starting.getD 0 0)
    let mid := (List.range' 1 (starting.length - 2)).foldl
      (fun acc counter =>
        acc ++ lit " - " ++ pySlice rawLine (ending.getD (counter - 1) 0 + 2) (starting.getD counter 0))
      base
    return .inr (mid ++ lit " - " ++ rawLine.drop (ending.getLastD 0 + 2))

/-- The two-pass tokenization (_parse_s3_log_line).  An error is any Python
exception escaping the call: the StopIteration of the scan bound, or the
TypeError of findall applied to the unrepaired list. -/
def parseS3LogLine (rawLine : Str) : Except Unit (List Str) :=
  let parsed := s3LogTokenize rawLine
  if parsed.length ≤ 26 then .ok parsed
  else
    match attemptToRemoveQuotes rawLine parsed with
    | .error _ => .error ()
    | .ok (.inl _) => .error ()
    | .ok (.inr cleaned) => .ok (s3LogTokenize cleaned)

/-! ## Field normalization and the slow line reducer (_s3_log_file_reducer.py) -/

/-- Field-count normalization (_get_full_log_line): 24 tokens gain a trailing
dash for the missing access-point ARN, 25 are taken as-is, 26 lose the final
token, anything else is rejected. -/
def getFullLogLine (parsed : List Str) : Option (List Str) :=
  match parsed.length with
  | 24 => some (parsed ++ [lit "-"])
  | 25 => some parsed
  | 26 => some (parsed.take 25)
  | _ => none

/-- Positional schema accessors of the 25-field full log line. -/
def fll_timestamp (l : List Str) : Str := l.getD 2 []

def fll_ip_address (l : List Str) : Str := l.getD 3 []

def fll_operation (l : List Str) : Str := l.getD 6 []

def fll_object_key (l : List Str) : Str := l.getD 7 []

def fll_http_status_code (l : List Str) : Str := l.getD 9 []

def fll_bytes_sent (l : List Str) : Str := l.getD 11 []

/-- The closed registry _KNOWN_OPERATION_TYPES, entries and duplicates as in
_globals.py. -/
def knownOperationTypes : List Str :=
  [lit "REST.GET.OBJECT", lit "REST.PUT.OBJECT", lit "REST.HEAD.OBJECT", lit "REST.POST.OBJECT",
   lit "REST.COPY.PART", lit "REST.COPY.OBJECT_GET", lit "REST.DELETE.OBJECT",
   lit "REST.OPTIONS.PREFLIGHT", lit "BATCH.DELETE.OBJECT", lit "WEBSITE.GET.OBJECT",
   lit "REST.GET.BUCKETVERSIONS", lit "REST.GET.BUCKET", lit "BATCH.DELETE.OBJECT",
   lit "REST.COPY.OBJECT_GET", lit "REST.COPY.PART", lit "REST.DELETE.OBJECT",
   lit "REST.DELETE.OBJECT_TAGGING", lit "REST.DELETE.UPLOAD", lit "REST.GET.ACCELERATE",
   lit "REST.GET.ACL", lit "REST.GET.ANALYTICS", lit "REST.GET.BUCKET", lit "REST.GET.BUCKETPOLICY",
   lit "REST.GET.BUCKETVERSIONS", lit "REST.GET.CORS", lit "REST.GET.ENCRYPTION",
   lit "REST.GET.INTELLIGENT_TIERING", lit "REST.GET.INVENTORY", lit "REST.GET.LIFECYCLE",
   lit "REST.GET.LOCATION", lit "REST.GET.LOGGING_STATUS", lit "REST.GET.METRICS",
   lit "REST.GET.NOTIFICATION", lit "REST.GET.OBJECT", lit "REST.GET.OBJECT_LOCK_CONFIGURATION",
   lit "REST.GET.OBJECT_TAGGING", lit "REST.GET.OWNERSHIP_CONTROLS", lit "REST.GET.POLICY_STATUS",
   lit "REST.GET.PUBLIC_ACCESS_BLOCK", lit "REST.GET.REPLICATION", lit "REST.GET.REQUEST_PAYMENT",
   lit "REST.GET.TAGGING", lit "REST.GET.UPLOAD", lit "REST.GET.VERSIONING", lit "REST.GET.WEBSITE",
   lit "REST.HEAD.BUCKET", lit "REST.HEAD.OBJECT", lit "REST.OPTIONS.PREFLIGHT",
   lit "REST.POST.BUCKET", lit "REST.POST.MULTI_OBJECT_DELETE", lit "REST.POST.OBJECT",
   lit "REST.POST.UPLOAD", lit "REST.POST.UPLOADS", lit "REST.PUT.ACL", lit "REST.PUT.BUCKETPOLICY",
   lit "REST.PUT.OBJECT", lit "REST.PUT.OWNERSHIP_CONTROLS", lit "REST.PUT.PART"]

/-- Defaultdict lookup _IS_OPERATION_TYPE_KNOWN. -/
def isOperationTypeKnown (op : Str) : Bool := knownOperationTypes.contains op

/-- Observable outcome of one line through a reducer: an emitted reduced row,
a dropped line, or a Python exception escaping the call. -/
inductive LineOutcome where
  | emit (row : Str)
  | drop
  | raise
  deriving DecidableEq, Repr

/-- Python s[-n:]. -/
def lastN (n : Nat) (s : Str) : Str := s.drop (s.length - n)

def mkReducedRow (ts ip key bytes : Str) : Str :=
  ts ++ '\t' :: ip ++ '\t' :: key ++ '\t' :: bytes ++ ['\n']

/-- Steps of _reduce_raw_s3_log_line after validation and the timezone check:
the silent policy filters, then key handling, timestamp conversion of the
timestamp with its last six characters removed, and the bytes conversion
int(bytes_sent) with the dash sentinel mapped to zero.  The strptime and int
calls sit outside the try block of the source, so their ValueError escapes. -/
def finishReduce (full : List Str) (operationType : Str) (excludedIps : Str → Bool)
    (objectKeyHandler : Str → Str) : LineOutcome :=
  if (fll_http_status_code full).headD ' ' ≠ '2' then .drop
  else if fll_operation full ≠ operationType then .drop
  else if excludedIps (fll_ip_address full) then .drop
  else
    let handledKey := objectKeyHandler (fll_object_key full)
    let ts := fll_timestamp full
    match strptimeDmbY (ts.take (ts.length - 6)) with
    | none => .raise
    | some dt =>
      let bs := fll_bytes_sent full
      if bs = lit "-" then .emit (mkReducedRow (isoformat dt) (fll_ip_address full) handledKey (intToStr 0))
      else
        match pyInt bs with
        | none => .raise
        | some v => .emit (mkReducedRow (isoformat dt) (fll_ip_address full) handledKey (intToStr v))

/-- The slow path _reduce_raw_s3_log_line: parse, normalize, validate with
diagnostics, then finish.  The first component lists the categories of the
diagnostics collected for the line, in order. -/
def reduceRawS3LogLine (rawLine operationType : Str) (excludedIps : Str → Bool)
    (objectKeyHandler : Str → Str) : List Str × LineOutcome :=
  match parseS3LogLine rawLine with
  | .error _ => ([lit "line_reduction"], .drop)
  | .ok parsed =>
    match getFullLogLine parsed with
    | none => ([lit "line"], .drop)
    | some full =>
      if ¬ pyIsDigit (fll_http_status_code full) then ([lit "line"], .drop)
      else if ¬ isOperationTypeKnown (fll_operation full) then ([lit "line"], .drop)
      else
        let tzDiags := if lastN 5 (fll_timestamp full) ≠ lit "+0000" then [lit "line"] else []
        (tzDiags, finishReduce full operationType excludedIps objectKeyHandler)

/-- The default DANDI object-key handler: collapse zarr store keys to their
first two path segments, pass anything else through. -/
def dandiObjectKeyHandler (objectKey : Str) : Str :=
  let splitBySlash := pySplitOn (lit "/") objectKey
  if splitBySlash.headD [] = lit "zarr" then pyJoin (lit "/") (splitBySlash.take 2)
  else objectKey

/-- Python "".join(split_by_space[2:3]): the one-element slice at index 2. -/
def joinSlice23 (xs : List Str) : Str := ((xs.drop 2).take 1).foldl (· ++ ·) []

/-- The slow-path fallback call of the fast path: the slow reducer runs with
the default DANDI object-key handler, and an exception escaping it is caught
by the enclosing try of the fast path, collected, and the line dropped. -/
def fastFallbackToSlow (rawLine operationType : Str) (excludedIps : Str → Bool) :
    List Str × Option Str :=
  match reduceRawS3LogLine rawLine operationType excludedIps dandiObjectKeyHandler with
  | (diags, .raise) => (diags ++ [lit "fast_line_reduction"], none)
  | (diags, .drop) => (diags, none)
  | (diags, .emit row) => (diags, some row)

/-- The fast path _fast_dandi_reduce_raw_s3_log_line.  Any exception inside
the body, an IndexError of a positional lookup, a ValueError of strptime, or
anything escaping the slow-path fallback, is caught and converted into a
fast_line_reduction diagnostic with the line dropped. -/
def fastDandiReduceRawS3LogLine (rawLine operationType : Str) (excludedIps : Str → Bool) :
    List Str × Option Str :=
  match (pySplitSpace rawLine).get? 4 with
  | none => ([lit "fast_line_reduction"], none)
  | some ip =>
    if excludedIps ip then ([], none)
    else
      match (pySplitSpace rawLine).get? 7 with
      | none => ([lit "fast_line_reduction"], none)
      | some lineOperationType =>
        if lineOperationType ≠ operationType then ([], none)
        else
          match (pySplitSpace rawLine).get? 8 with
          | none => ([lit "fast_line_reduction"], none)
          | some fullObjectKey =>
            let slashSplit := pySplitOn (lit "/") fullObjectKey
            let keyChoice : Option Str :=
              if slashSplit.headD [] = lit "blobs" then some fullObjectKey
              else if slashSplit.headD [] = lit "zarr" then some (pyJoin (lit "/") (slashSplit.take 2))
              else none
            match keyChoice with
            | none => ([], none)
            | some objectKey =>
              match (pySplitOn (lit "\" ") rawLine).get? 1 with
              | none => ([lit "fast_line_reduction"], none)
              | some postQuote =>
                let block := pySplitSpace postQuote
                let httpStatus := block.headD []
                match block.get? 2 with
                | none => ([lit "fast_line_reduction"], none)
                | some bytesSent =>
                  if pyIsDigit httpStatus ∧ httpStatus.length = 3 ∧ httpStatus.headD ' ' ≠ '2' then
                    ([], none)
                  else if block.length ≠ 7 ∨ ¬ pyIsDigit httpStatus ∨ ¬ pyIsDigit bytesSent then
                    fastFallbackToSlow rawLine operationType excludedIps
                  else
                    match strptimeBracketDmbY (joinSlice23 (pySplitSpace rawLine)) with
                    | none => ([lit "fast_line_reduction"], none)
                    | some dt => ([], some (mkReducedRow (isoformat dt) ip objectKey bytesSent))

/-! ## File-level reducer (reduce_raw_s3_log) -/

/-- Outcome wrapper putting the fast path in the common line-reducer shape;
the fast path never lets an exception escape. -/
def fastDandiLineReduce (operationType : Str) (excludedIps : Str → Bool) (rawLine : Str) :
    List Str × LineOutcome :=
  match fastDandiReduceRawS3LogLine rawLine operationType excludedIps with
  | (diags, some row) => (diags, .emit row)
  | (diags, none) => (diags, .drop)

def headerTSV : Str := lit "timestamp\tip_address\tobject_key\tbytes_sent\n"

/-- Rows of the accepted lines in source order, the value of the accepting
comprehension of reduce_raw_s3_log when no line raises. -/
def acceptedRows (lineReduce : Str → List Str × LineOutcome) (ls : List Str) : List Str :=
  ls.filterMap (fun l =>
    match (lineReduce l).2 with
    | .emit r => some r
    | _ => none)

/-- The accepting comprehension of reduce_raw_s3_log: rows of the accepted
lines in source order; an exception escaping any line reduction aborts the
whole file before anything is written. -/
def collectRows (lineReduce : Str → List Str × LineOutcome) : List Str → Except Unit (List Str)
  | [] => .ok []
  | l :: ls =>
    match (lineReduce l).2 with
    | .raise => .error ()
    | .drop => collectRows lineReduce ls
    | .emit r => (collectRows lineReduce ls).map (r :: ·)

inductive FileErr where
  | reader (e : ReaderErr)
  | lineException
  deriving DecidableEq, Repr

/-- reduce_raw_s3_log over one raw file: read the file in buffered line
batches, reduce every line, and write the reduced file as the header, present
exactly when at least one row was accepted, followed by the rows. -/
def reduceRawS3Log (file : Str) (maximumBufferSizeInBytes : Nat)
    (lineReduce : Str → List Str × LineOutcome) : Except FileErr Str :=
  match bufferedRead file maximumBufferSizeInBytes with
  | (_, some e) => .error (.reader e)
  | (batches, none) =>
    match collectRows lineReduce batches.flatten with
    | .error _ => .error .lineException
    | .ok rows => .ok ((if rows.isEmpty then [] else headerTSV) ++ rows.flatten)

/-! ## Batch reducer enumeration (reduce_all_dandi_raw_s3_logs)

Modelled from the spec: the batch entry point of the released revision is not
present under src, where _dandi_s3_log_file_reducer.py is an earlier revision
with an incompatible interface (its own test suite calls the newer keyword
raw_s3_logs_folder_path and checks mirrored day files).  Enumeration and the
skip-on-exists rule are therefore modelled from spec section 4.5 steps 2 and
3: enumerate raw day files with numeric stems, drop any whose mirror under
the reduced root already exists, and write one reduced file per remaining raw
file at its mirror path.  Archives are association lists from relative paths
to file contents, lookup taking the first match like a filesystem. -/

def lookupArchive (archive : List (Str × Str)) (p : Str) : Option Str :=
  (archive.find? (fun e => e.1 = p)).map (·.2)

/-- Relative mirror path: the raw .log name with a .tsv extension. -/
def mirrorReducedName (rawName : Str) : Str :=
  rawName.take (rawName.length - 4) ++ lit ".tsv"

/-- Stem of a relative path: the file name without its extension. -/
def pathStem (p : Str) : Str :=
  let fileName := (p.reverse.takeWhile (fun c => c ≠ '/')).reverse
  fileName.take (fileName.length - 4)

/-- Modelled from the spec: one batch run of reduce_all_dandi_raw_s3_logs.
Numeric-stem raw files whose mirror is absent are reduced and their outputs
appended to the reduced archive; existing reduced files are never touched. -/
def runDandiBatchReduce (reduceFile : Str → Str) (raw : List (Str × Str))
    (reduced : List (Str × Str)) : List (Str × Str) :=
  let selected := raw.filter
    (fun pr => pyIsDigit (pathStem pr.1) && (lookupArchive reduced (mirrorReducedName pr.1)).isNone)
  reduced ++ selected.map (fun pr => (mirrorReducedName pr.1, reduceFile pr.2))

/-! ## Import-time configuration (_config.py) -/

structure ImportEnv where
  ipinfoCredentials : Option Str
  ipinfoHashSalt : Option Str

inductive ConfigEffect where
  | mkdirBaseFolder
  deriving DecidableEq, Repr

/-- Module-level execution of _config.py: the base folder mkdir runs first,
then each environment variable is checked and a missing one raises ValueError
naming it; on success the module binds both values. -/
def importConfigModule (env : ImportEnv) : List ConfigEffect × Except Str (Str × Str) :=
  ([.mkdirBaseFolder],
    match env.ipinfoCredentials with
    | none => .error (lit "IPINFO_CREDENTIALS")
    | some cred =>
      match env.ipinfoHashSalt with
      | none => .error (lit "IPINFO_HASH_SALT")
      | some salt => .ok (cred, salt))

/-- Importing the package runs _config.py first (the first import of
__init__.py), so package import is the module import. -/
def importPackage (env : ImportEnv) : List ConfigEffect × Except Str (Str × Str) :=
  importConfigModule env

/-! ## Helper lemmas on takeWhile and dropWhile -/

theorem dropWhile_eq_drop_tw {α : Type} (p : α → Bool) (l : List α) :
    l.dropWhile p = l.drop (l.takeWhile p).length := by
  induction l with
  | nil => simp
  | cons x xs ih =>
    by_cases h : p x <;> simp [List.takeWhile, List.dropWhile, h, ih]

theorem dropWhile_headD_false {α : Type} (p : α → Bool) (l : List α) (d : α)
    (h : l.dropWhile p ≠ []) : p ((l.dropWhile p).headD d) = false := by
  induction l with
  | nil => simp at h
  | cons x xs ih =>
    by_cases hx : p x
    · simp only [List.dropWhile, hx] at h ⊢
      exact ih h
    · simp only [List.dropWhile, hx] at h ⊢
      simp [hx]

theorem takeWhile_eq_self_of_len {α : Type} (p : α → Bool) (l : List α)
    (h : (l.takeWhile p).length = l.length) : l.takeWhile p = l := by
  induction l with
  | nil => simp
  | cons x xs ih =>
    by_cases hx : p x
    · simp only [List.takeWhile, hx, List.length_cons] at h ⊢
      simp only [Nat.succ.injEq] at h
      simp [ih h]
    · simp [List.takeWhile, hx] at h

theorem tw_length_le {α : Type} (p : α → Bool) (l : List α) :
    (l.takeWhile p).length ≤ l.length := by
  have := congrArg List.length (List.takeWhile_append_dropWhile p l)
  simp only [List.length_append] at this
  omega

theorem takeWhile_append_stop {α : Type} (p : α → Bool) (a b : List α)
    (h : (a.takeWhile p).length < a.length) : (a ++ b).takeWhile p = a.takeWhile p := by
  induction a with
  | nil => simp at h
  | cons x xs ih =>
    by_cases hx : p x
    · rw [List.takeWhile_cons_of_pos hx] at h
      rw [List.cons_append, List.takeWhile_cons_of_pos hx, List.takeWhile_cons_of_pos hx]
      have hlt : (xs.takeWhile p).length < xs.length := by
        simp only [List.length_cons] at h
        omega
      simp [ih hlt]
    · rw [List.cons_append, List.takeWhile_cons_of_neg hx, List.takeWhile_cons_of_neg hx]

theorem takeWhile_all_append {α : Type} (p : α → Bool) (a b : List α)
    (h : ∀ x ∈ a, p x) : (a ++ b).takeWhile p = a ++ b.takeWhile p :=
  List.takeWhile_append_of_pos h

theorem takeWhile_eq_self_of_all {α : Type} (p : α → Bool) (l : List α)
    (h : ∀ x ∈ l, p x) : l.takeWhile p = l := by
  have := takeWhile_all_append p l [] h
  simpa using this

/-! ## Structure of splitlinesL -/

theorem isNotNl_iff (c : Char) : isNotNl c = true ↔ c ≠ '\n' := by
  simp [isNotNl]

theorem isNotNl_false_iff (c : Char) : isNotNl c = false ↔ c = '\n' := by
  simp [isNotNl]

theorem splitlinesGo_congr : ∀ (n m : Nat) (s : Str), s.length ≤ n → s.length ≤ m →
    splitlinesGo n s = splitlinesGo m s := by
  intro n
  induction n with
  | zero =>
    intro m s hn _
    have : s = [] := List.length_eq_zero.mp (Nat.le_zero.mp hn)
    subst this
    cases m <;> rfl
  | succ n ih =>
    intro m s hn hm
    cases s with
    | nil => cases m <;> rfl
    | cons c cs =>
      cases m with
      | zero => simp at hm
      | succ m =>
        simp only [splitlinesGo]
        congr 1
        apply ih <;>
        · simp only [List.length_drop, List.length_cons]
          simp only [List.length_cons] at hn hm
          omega

theorem splitlinesL_nil : splitlinesL [] = [] := rfl

theorem splitlinesL_cons (s : Str) (h : s ≠ []) :
    splitlinesL s =
      s.takeWhile isNotNl :: splitlinesL (s.drop ((s.takeWhile isNotNl).length + 1)) := by
  obtain ⟨c, cs, rfl⟩ := List.exists_cons_of_ne_nil h
  show splitlinesGo (c :: cs).length (c :: cs) = _
  simp only [List.length_cons, splitlinesGo]
  congr 1
  apply splitlinesGo_congr <;>
  · simp only [List.length_drop, List.length_cons]
    omega

theorem splitlinesL_eq_nil_iff (s : Str) : splitlinesL s = [] ↔ s = [] := by
  constructor
  · intro h
    by_contra hne
    rw [splitlinesL_cons s hne] at h
    simp at h
  · intro h
    simp [h, splitlinesL_nil]

/-- A string whose first line is shorter than the whole decomposes as that
line, a linefeed, and the remaining tail. -/
theorem line_decomp (s : Str) (h : (s.takeWhile isNotNl).length < s.length) :
    s = s.takeWhile isNotNl ++ '\n' :: s.drop ((s.takeWhile isNotNl).length + 1) := by
  have hd : s.dropWhile isNotNl = s.drop (s.takeWhile isNotNl).length :=
    dropWhile_eq_drop_tw isNotNl s
  have hne : s.dropWhile isNotNl ≠ [] := by
    rw [hd]
    intro hnil
    have := List.drop_eq_nil_iff.mp hnil
    omega
  obtain ⟨c, t, hct⟩ := List.exists_cons_of_ne_nil hne
  have hc : isNotNl c = false := by
    have := dropWhile_headD_false isNotNl s c hne
    rw [hct] at this
    simpa using this
  have hcnl : c = '\n' := (isNotNl_false_iff c).mp hc
  have ht : t = s.drop ((s.takeWhile isNotNl).length + 1) := by
    have h1 := List.drop_drop 1 (s.takeWhile isNotNl).length s
    rw [← hd, hct] at h1
    simpa using h1
  calc s = s.takeWhile isNotNl ++ s.dropWhile isNotNl :=
        (List.takeWhile_append_dropWhile isNotNl s).symm
    _ = s.takeWhile isNotNl ++ '\n' :: s.drop ((s.takeWhile isNotNl).length + 1) := by
        rw [hct, hcnl, ht]

theorem getLast?_cons_ne {α : Type} (a : α) (t : List α) (h : t ≠ []) :
    (a :: t).getLast? = t.getLast? := by
  cases t with
  | nil => exact absurd rfl h
  | cons x xs => simp [List.getLast?_cons_cons]

theorem sl_singleton (s : Str) (h1 : s ≠ []) (h2 : ∀ x ∈ s, isNotNl x) :
    splitlinesL s = [s] := by
  rw [splitlinesL_cons s h1, takeWhile_eq_self_of_all isNotNl s h2]
  rw [List.drop_eq_nil_of_le (by omega), splitlinesL_nil]

/-- The first line of a string ending in a linefeed is shorter than the
string. -/
theorem tw_lt_of_last_nl (s : Str) (hnl : s.getLast? = some '\n') :
    (s.takeWhile isNotNl).length < s.length := by
  rcases Nat.lt_or_ge (s.takeWhile isNotNl).length s.length with h | h
  · exact h
  · exfalso
    have heq : (s.takeWhile isNotNl).length = s.length :=
      Nat.le_antisymm (tw_length_le isNotNl s) h
    have hself := takeWhile_eq_self_of_len isNotNl s heq
    have hmem : ('\n' : Char) ∈ s := List.mem_of_mem_getLast? hnl
    have : isNotNl '\n' = true :=
      List.mem_takeWhile_imp
        (show ('\n' : Char) ∈ s.takeWhile isNotNl by rw [hself]; exact hmem)
    simp [isNotNl] at this

/-- splitlinesL distributes over an append whose left part ends in a
linefeed. -/
theorem sl_split : ∀ (n : Nat) (u v : Str), u.length ≤ n → u ≠ [] →
    u.getLast? = some '\n' → splitlinesL (u ++ v) = splitlinesL u ++ splitlinesL v := by
  intro n
  induction n with
  | zero =>
    intro u v hlen hne _
    exact absurd (List.length_eq_zero.mp (Nat.le_zero.mp hlen)) hne
  | succ n ih =>
    intro u v hlen hne hnl
    have hfl : (u.takeWhile isNotNl).length < u.length := tw_lt_of_last_nl u hnl
    set f := u.takeWhile isNotNl with hf
    set t := u.drop (f.length + 1) with htdef
    have hu : u = f ++ '\n' :: t := line_decomp u hfl
    have hfall : ∀ x ∈ f, isNotNl x := fun x hx => List.mem_takeWhile_imp hx
    have htwuv : (u ++ v).takeWhile isNotNl = f := by
      rw [hu]
      rw [List.append_assoc, List.cons_append]
      rw [takeWhile_all_append isNotNl f _ hfall]
      simp [List.takeWhile, isNotNl]
    have htwu : u.takeWhile isNotNl = f := hf.symm
    have hlenf : f.length + 1 ≤ u.length := hfl
    have hdropuv : (u ++ v).drop (f.length + 1) = t ++ v := by
      conv_lhs => rw [hu, List.append_assoc, List.cons_append]
      have h1 : (f ++ '\n' :: (t ++ v)).drop (f.length + 1) = ('\n' :: (t ++ v)).drop 1 :=
        List.drop_append 1
      simp only [List.drop_succ_cons, List.drop_zero] at h1
      exact h1
    have huvne : u ++ v ≠ [] := by
      intro hc
      exact hne (List.append_eq_nil.mp hc).1
    rw [splitlinesL_cons (u ++ v) huvne, htwuv, hdropuv]
    rw [splitlinesL_cons u hne, htwu]
    have hdropu : u.drop (f.length + 1) = t := htdef.symm
    rw [hdropu]
    by_cases hte : t = []
    · rw [hte]
      simp [splitlinesL_nil]
    · have htnl : t.getLast? = some '\n' := by
        have : u.getLast? = t.getLast? := by
          rw [hu]
          rw [List.getLast?_append_of_ne_nil _ (by simp : '\n' :: t ≠ [])]
          rw [getLast?_cons_ne '\n' t hte]
        rw [← this, hnl]
      have htlen : t.length ≤ n := by
        have : t.length = u.length - (f.length + 1) := by
          rw [htdef]
          simp
        omega
      rw [ih t v htlen hte htnl]
      simp

/-! ## Structure of existsOversize and line length bounds -/

theorem existsOversizeGo_congr (B : Nat) : ∀ (n m : Nat) (s : Str), s.length ≤ n →
    s.length ≤ m → existsOversizeGo B n s = existsOversizeGo B m s := by
  intro n
  induction n with
  | zero =>
    intro m s hn _
    have : s = [] := List.length_eq_zero.mp (Nat.le_zero.mp hn)
    subst this
    cases m <;> rfl
  | succ n ih =>
    intro m s hn hm
    cases s with
    | nil => cases m <;> rfl
    | cons c cs =>
      cases m with
      | zero => simp at hm
      | succ m =>
        simp only [existsOversizeGo]
        congr 1
        congr 1
        apply ih <;>
        · simp only [List.length_drop, List.length_cons]
          simp only [List.length_cons] at hn hm
          omega

theorem eo_nil (B : Nat) : existsOversize B [] = false := rfl

theorem eo_cons (B : Nat) (s : Str) (h : s ≠ []) :
    existsOversize B s =
      (if B ≤ (s.takeWhile isNotNl).length then true
       else if (s.takeWhile isNotNl).length + 1 = B ∧ s.takeWhile isNotNl ≠ [] ∧
           (s.takeWhile isNotNl).length < s.length then true
       else existsOversize B (s.drop ((s.takeWhile isNotNl).length + 1))) := by
  obtain ⟨c, cs, rfl⟩ := List.exists_cons_of_ne_nil h
  show existsOversizeGo B (c :: cs).length (c :: cs) = _
  simp only [List.length_cons, existsOversizeGo]
  congr 1
  congr 1
  apply existsOversizeGo_congr <;>
  · simp only [List.length_drop, List.length_cons]
    omega

theorem mem_sl_length_le : ∀ (n : Nat) (s : Str), s.length ≤ n →
    ∀ l ∈ splitlinesL s, l.length ≤ s.length := by
  intro n
  induction n with
  | zero =>
    intro s hlen l hl
    have : s = [] := List.length_eq_zero.mp (Nat.le_zero.mp hlen)
    rw [this, splitlinesL_nil] at hl
    simp at hl
  | succ n ih =>
    intro s hlen l hl
    by_cases hs : s = []
    · rw [hs, splitlinesL_nil] at hl
      simp at hl
    · rw [splitlinesL_cons s hs] at hl
      rcases List.mem_cons.mp hl with heq | hmem
      · rw [heq]
        exact tw_length_le isNotNl s
      · have hslen : 0 < s.length := List.length_pos.mpr hs
        have hdlen : (s.drop ((s.takeWhile isNotNl).length + 1)).length ≤ n := by
          simp only [List.length_drop]
          omega
        have := ih (s.drop ((s.takeWhile isNotNl).length + 1)) hdlen l hmem
        simp only [List.length_drop] at this
        omega

theorem mem_sl_term_le : ∀ (n : Nat) (s : Str), s.length ≤ n → s.getLast? = some '\n' →
    ∀ l ∈ splitlinesL s, l.length + 1 ≤ s.length := by
  intro n
  induction n with
  | zero =>
    intro s hlen hnl l hl
    have : s = [] := List.length_eq_zero.mp (Nat.le_zero.mp hlen)
    rw [this] at hnl
    simp at hnl
  | succ n ih =>
    intro s hlen hnl l hl
    have hs : s ≠ [] := by
      intro hc
      rw [hc] at hnl
      simp at hnl
    have hfl : (s.takeWhile isNotNl).length < s.length := tw_lt_of_last_nl s hnl
    rw [splitlinesL_cons s hs] at hl
    rcases List.mem_cons.mp hl with heq | hmem
    · rw [heq]
      omega
    · set t := s.drop ((s.takeWhile isNotNl).length + 1) with htdef
      have hte : t ≠ [] := by
        intro hc
        rw [hc, splitlinesL_nil] at hmem
        simp at hmem
      have htnl : t.getLast? = some '\n' := by
        have hu := line_decomp s hfl
        have : s.getLast? = t.getLast? := by
          conv_lhs => rw [hu]
          rw [List.getLast?_append_of_ne_nil _ (by simp : '\n' :: t ≠ [])]
          rw [getLast?_cons_ne '\n' t hte]
        rw [← this, hnl]
      have htlen : t.length ≤ n := by
        rw [htdef]
        simp only [List.length_drop]
        have : 0 < s.length := List.length_pos.mpr hs
        omega
      have := ih t htlen htnl l hmem
      have htl : t.length = s.length - ((s.takeWhile isNotNl).length + 1) := by
        rw [htdef]
        simp
      omega

theorem eo_small : ∀ (n : Nat) (s : Str) (B : Nat), s.length ≤ n → s.length < B →
    existsOversize B s = false := by
  intro n
  induction n with
  | zero =>
    intro s B hlen _
    have : s = [] := List.length_eq_zero.mp (Nat.le_zero.mp hlen)
    rw [this, eo_nil]
  | succ n ih =>
    intro s B hlen hsB
    by_cases hs : s = []
    · rw [hs, eo_nil]
    · rw [eo_cons B s hs]
      have h1 : ¬ B ≤ (s.takeWhile isNotNl).length := by
        have := tw_length_le isNotNl s
        omega
      have h2 : ¬ ((s.takeWhile isNotNl).length + 1 = B ∧ s.takeWhile isNotNl ≠ [] ∧
          (s.takeWhile isNotNl).length < s.length) := by
        rintro ⟨hb, _, hlt⟩
        omega
      rw [if_neg h1, if_neg h2]
      apply ih
      · simp only [List.length_drop]
        have : 0 < s.length := List.length_pos.mpr hs
        omega
      · simp only [List.length_drop]
        omega

theorem eo_false_of_short : ∀ (n : Nat) (s : Str) (B : Nat), s.length ≤ n → 1 ≤ B →
    (∀ l ∈ splitlinesL s, l = [] ∨ l.length + 2 ≤ B) → existsOversize B s = false := by
  intro n
  induction n with
  | zero =>
    intro s B hlen _ _
    have : s = [] := List.length_eq_zero.mp (Nat.le_zero.mp hlen)
    rw [this, eo_nil]
  | succ n ih =>
    intro s B hlen hB hshort
    by_cases hs : s = []
    · rw [hs, eo_nil]
    · have hfmem : s.takeWhile isNotNl ∈ splitlinesL s := by
        rw [splitlinesL_cons s hs]
        exact List.mem_cons_self _ _
      have hf := hshort _ hfmem
      rw [eo_cons B s hs]
      have h1 : ¬ B ≤ (s.takeWhile isNotNl).length := by
        rcases hf with hfe | hfle
        · rw [hfe]
          simp only [List.length_nil]
          omega
        · omega
      have h2 : ¬ ((s.takeWhile isNotNl).length + 1 = B ∧ s.takeWhile isNotNl ≠ [] ∧
          (s.takeWhile isNotNl).length < s.length) := by
        rintro ⟨hb, hfne, _⟩
        rcases hf with hfe | hfle
        · exact hfne hfe
        · omega
      rw [if_neg h1, if_neg h2]
      apply ih _ B
      · simp only [List.length_drop]
        have : 0 < s.length := List.length_pos.mpr hs
        omega
      · exact hB
      · intro l hl
        apply hshort
        rw [splitlinesL_cons s hs]
        exact List.mem_cons_of_mem _ hl

/-- existsOversize distributes over an append whose left part ends in a
linefeed. -/
theorem eo_split : ∀ (n : Nat) (u v : Str) (B : Nat), u.length ≤ n → u ≠ [] →
    u.getLast? = some '\n' →
    existsOversize B (u ++ v) = (existsOversize B u || existsOversize B v) := by
  intro n
  induction n with
  | zero =>
    intro u v B hlen hne _
    exact absurd (List.length_eq_zero.mp (Nat.le_zero.mp hlen)) hne
  | succ n ih =>
    intro u v B hlen hne hnl
    have hfl : (u.takeWhile isNotNl).length < u.length := tw_lt_of_last_nl u hnl
    set f := u.takeWhile isNotNl with hf
    set t := u.drop (f.length + 1) with htdef
    have hu : u = f ++ '\n' :: t := line_decomp u hfl
    have hfall : ∀ x ∈ f, isNotNl x := fun x hx => List.mem_takeWhile_imp hx
    have htwuv : (u ++ v).takeWhile isNotNl = f := by
      rw [hu]
      rw [List.append_assoc, List.cons_append]
      rw [takeWhile_all_append isNotNl f _ hfall]
      simp [List.takeWhile, isNotNl]
    have hdropuv : (u ++ v).drop (f.length + 1) = t ++ v := by
      conv_lhs => rw [hu, List.append_assoc, List.cons_append]
      have h1 : (f ++ '\n' :: (t ++ v)).drop (f.length + 1) = ('\n' :: (t ++ v)).drop 1 :=
        List.drop_append 1
      simp only [List.drop_succ_cons, List.drop_zero] at h1
      exact h1
    have huvne : u ++ v ≠ [] := by
      intro hc
      exact hne (List.append_eq_nil.mp hc).1
    rw [eo_cons B (u ++ v) huvne, htwuv, hdropuv]
    rw [eo_cons B u hne, ← hf, ← htdef]
    by_cases h1 : B ≤ f.length
    · rw [if_pos h1, if_pos h1]
      simp
    · rw [if_neg h1, if_neg h1]
      have hflenuv : f.length < (u ++ v).length := by
        simp only [List.length_append]
        omega
      by_cases h2 : f.length + 1 = B ∧ f ≠ []
      · rw [if_pos ⟨h2.1, h2.2, hflenuv⟩, if_pos ⟨h2.1, h2.2, hfl⟩]
        simp
      · have h2uv : ¬ (f.length + 1 = B ∧ f ≠ [] ∧ f.length < (u ++ v).length) := by
          rintro ⟨ha, hb, _⟩
          exact h2 ⟨ha, hb⟩
        have h2u : ¬ (f.length + 1 = B ∧ f ≠ [] ∧ f.length < u.length) := by
          rintro ⟨ha, hb, _⟩
          exact h2 ⟨ha, hb⟩
        rw [if_neg h2uv, if_neg h2u]
        by_cases hte : t = []
        · rw [hte]
          simp [eo_nil]
        · have htnl : t.getLast? = some '\n' := by
            have : u.getLast? = t.getLast? := by
              conv_lhs => rw [hu]
              rw [List.getLast?_append_of_ne_nil _ (by simp : '\n' :: t ≠ [])]
              rw [getLast?_cons_ne '\n' t hte]
            rw [← this, hnl]
          have htlen : t.length ≤ n := by
            have : t.length = u.length - (f.length + 1) := by
              rw [htdef]
              simp
            omega
          exact ih t v B htlen hte htnl

/-! ## Window analysis for the buffered reader -/

theorem getLastD_mem {α : Type} (l : List α) : ∀ (d : α), l ≠ [] → l.getLastD d ∈ l := by
  induction l with
  | nil => intro d h; exact absurd rfl h
  | cons x xs ih =>
    intro d _
    cases hxs : xs with
    | nil => simp
    | cons y ys =>
      have := ih x (by simp [hxs])
      rw [hxs] at this
      simp only [List.getLastD_cons] at this ⊢
      exact List.mem_cons_of_mem x this

/-- The oversize branch condition of __next__, stated on the first line of
the full window: the window holds at most one line boundary and its first
line is non-empty. -/
theorem window_err_iff (B : Nat) (c : Str) (hc : c.length = B) (hB : 1 ≤ B) :
    ((splitlinesL c).dropLast = [] ∧ (splitlinesL c).getLastD [] ≠ []) ↔
      (B ≤ (c.takeWhile isNotNl).length + 1 ∧ c.takeWhile isNotNl ≠ []) := by
  have hcne : c ≠ [] := by
    intro h
    rw [h] at hc
    simp at hc
    omega
  rw [splitlinesL_cons c hcne]
  rcases hrest : splitlinesL (c.drop ((c.takeWhile isNotNl).length + 1)) with _ | ⟨r, rs⟩
  · have hdropnil : c.drop ((c.takeWhile isNotNl).length + 1) = [] :=
      (splitlinesL_eq_nil_iff _).mp hrest
    have hlen : c.length ≤ (c.takeWhile isNotNl).length + 1 :=
      List.drop_eq_nil_iff.mp hdropnil
    simp only [List.dropLast_single, List.getLastD_cons, List.getLastD_nil]
    constructor
    · rintro ⟨_, hne⟩
      exact ⟨by omega, hne⟩
    · rintro ⟨_, hne⟩
      exact ⟨trivial, hne⟩
  · have hdropne : c.drop ((c.takeWhile isNotNl).length + 1) ≠ [] := by
      intro h
      rw [h, splitlinesL_nil] at hrest
      simp at hrest
    have hlen : (c.takeWhile isNotNl).length + 1 < c.length := by
      have := List.drop_eq_nil_iff.not.mp hdropne
      omega
    constructor
    · rintro ⟨hd, _⟩
      simp at hd
    · rintro ⟨hb, _⟩
      omega

/-- When the window condition for the oversize error holds, the whole file
satisfies existsOversize. -/
theorem eo_of_window_err (B : Nat) (s : Str) (hB : 1 ≤ B) (hBs : B ≤ s.length)
    (herr : B ≤ ((s.take B).takeWhile isNotNl).length + 1 ∧ (s.take B).takeWhile isNotNl ≠ []) :
    existsOversize B s = true := by
  have hsne : s ≠ [] := by
    intro h
    rw [h] at hBs
    simp at hBs
    omega
  have hfc : (s.take B).takeWhile isNotNl = (s.takeWhile isNotNl).take B :=
    (List.take_takeWhile isNotNl B).symm
  rw [eo_cons B s hsne]
  by_cases h1 : B ≤ (s.takeWhile isNotNl).length
  · rw [if_pos h1]
  · rw [if_neg h1]
    have htake : (s.takeWhile isNotNl).take B = s.takeWhile isNotNl :=
      List.take_of_length_le (by omega)
    rw [hfc, htake] at herr
    have hcond : (s.takeWhile isNotNl).length + 1 = B ∧ s.takeWhile isNotNl ≠ [] ∧
        (s.takeWhile isNotNl).length < s.length := by
      refine ⟨by omega, herr.2, by omega⟩
    rw [if_pos hcond]

/-- Decomposition of a full window that does not end on a linefeed but holds
at least one: the complete-line part, ending on the last linefeed, and the
trailing newline-free partial piece that is the last element of the split. -/
theorem chunk_decomp_notnl (c : Str) (hcne : c ≠ []) (hnl : ¬ c.getLast? = some '\n')
    (hhasnl : (c.takeWhile isNotNl).length < c.length) :
    ∃ good lp, c = good ++ lp ∧ good ≠ [] ∧ good.getLast? = some '\n' ∧ lp ≠ [] ∧
      (∀ x ∈ lp, isNotNl x) ∧ splitlinesL c = splitlinesL good ++ [lp] ∧
      (splitlinesL c).getLastD [] = lp ∧ (splitlinesL c).dropLast = splitlinesL good := by
  set g := c.reverse.takeWhile isNotNl with hg
  have hlpall : ∀ x ∈ g.reverse, isNotNl x := by
    intro x hx
    exact List.mem_takeWhile_imp (List.mem_reverse.mp hx)
  have hlpne : g.reverse ≠ [] := by
    obtain ⟨c0, rest, hcr⟩ := List.exists_cons_of_ne_nil
      (show c.reverse ≠ [] by simpa using hcne)
    have hc0 : c.getLast? = some c0 := by
      rw [List.getLast?_eq_head?_reverse, hcr]
      rfl
    have hc0nl : isNotNl c0 = true := by
      rcases Bool.eq_false_or_eq_true (isNotNl c0) with ht | hf
      · exact ht
      · exact absurd (by rw [hc0, (isNotNl_false_iff c0).mp hf]) hnl
    rw [hg, hcr]
    simp [List.takeWhile, hc0nl]
  have hdwne : c.reverse.dropWhile isNotNl ≠ [] := by
    intro hdw
    have hgfull : g = c.reverse := by
      have := List.takeWhile_append_dropWhile isNotNl c.reverse
      rw [hdw] at this
      simpa [hg] using this
    have hall : ∀ x ∈ c, isNotNl x := by
      intro x hx
      have : x ∈ g := by
        rw [hgfull]
        exact List.mem_reverse.mpr hx
      exact List.mem_takeWhile_imp this
    have := takeWhile_eq_self_of_all isNotNl c hall
    rw [this] at hhasnl
    omega
  obtain ⟨d, w, hdw⟩ := List.exists_cons_of_ne_nil hdwne
  have hdnl : d = '\n' := by
    have := dropWhile_headD_false isNotNl c.reverse d hdwne
    rw [hdw] at this
    simp only [List.headD_cons] at this
    exact (isNotNl_false_iff d).mp this
  have hcrev : c.reverse = g ++ '\n' :: w := by
    have := List.takeWhile_append_dropWhile isNotNl c.reverse
    rw [hdw, hdnl] at this
    rw [hg]
    exact this.symm
  have hcdecomp : c = (w.reverse ++ ['\n']) ++ g.reverse := by
    have := congrArg List.reverse hcrev
    simpa [List.reverse_append] using this
  refine ⟨w.reverse ++ ['\n'], g.reverse, hcdecomp, by simp, ?_, hlpne, hlpall, ?_, ?_, ?_⟩
  · rw [List.getLast?_concat]
  · have hsl := sl_split ((w.reverse ++ ['\n']).length) (w.reverse ++ ['\n']) g.reverse
      (Nat.le_refl _) (by simp) (by rw [List.getLast?_concat])
    rw [← hcdecomp] at hsl
    rw [hsl, sl_singleton g.reverse hlpne hlpall]
  · have hsl := sl_split ((w.reverse ++ ['\n']).length) (w.reverse ++ ['\n']) g.reverse
      (Nat.le_refl _) (by simp) (by rw [List.getLast?_concat])
    rw [← hcdecomp] at hsl
    rw [hsl, sl_singleton g.reverse hlpne hlpall]
    simp
  · have hsl := sl_split ((w.reverse ++ ['\n']).length) (w.reverse ++ ['\n']) g.reverse
      (Nat.le_refl _) (by simp) (by rw [List.getLast?_concat])
    rw [← hcdecomp] at hsl
    rw [hsl, sl_singleton g.reverse hlpne hlpall]
    exact List.dropLast_concat ..

/-- All lines of a fully-read window that passes the oversize check are
empty or leave room for two more bytes, when the window ends cleanly. -/
theorem window_lines_short (B : Nat) (c : Str) (hc : c.length = B)
    (hnl : c.getLast? = some '\n')
    (herr : ¬ (B ≤ (c.takeWhile isNotNl).length + 1 ∧ c.takeWhile isNotNl ≠ [])) :
    ∀ l ∈ splitlinesL c, l = [] ∨ l.length + 2 ≤ B := by
  have hcne : c ≠ [] := by
    intro h
    rw [h] at hnl
    simp at hnl
  have hfl : (c.takeWhile isNotNl).length < c.length := tw_lt_of_last_nl c hnl
  intro l hl
  rw [splitlinesL_cons c hcne] at hl
  rcases List.mem_cons.mp hl with heq | hmem
  · by_cases hfe : c.takeWhile isNotNl = []
    · left
      rw [heq, hfe]
    · right
      rw [heq]
      have hnb : ¬ B ≤ (c.takeWhile isNotNl).length + 1 := fun hb => herr ⟨hb, hfe⟩
      omega
  · right
    set t := c.drop ((c.takeWhile isNotNl).length + 1) with htdef
    have hte : t ≠ [] := by
      intro hcn
      rw [hcn, splitlinesL_nil] at hmem
      simp at hmem
    have htnl : t.getLast? = some '\n' := by
      have hu := line_decomp c hfl
      have : c.getLast? = t.getLast? := by
        conv_lhs => rw [hu]
        rw [List.getLast?_append_of_ne_nil _ (by simp : '\n' :: t ≠ [])]
        rw [getLast?_cons_ne '\n' t hte]
      rw [← this, hnl]
    have := mem_sl_term_le t.length t (Nat.le_refl _) htnl l hmem
    have htl : t.length = c.length - ((c.takeWhile isNotNl).length + 1) := by
      rw [htdef]
      simp
    omega

/-! ## The reader run in offset form equals the run in suffix form -/

theorem readerRun_stop (file : Str) (B : Nat) :
    ∀ fuel, readerRun file B fuel file.length = ([], none) := by
  intro fuel
  cases fuel with
  | zero => rfl
  | succ n =>
    simp [readerRun, readerNext]

theorem readerRun_eq_runS (file : Str) (B : Nat) : ∀ (fuel off : Nat), off ≤ file.length →
    readerRun file B fuel off = readerRunS B fuel (file.drop off) := by
  intro fuel
  induction fuel with
  | zero => intro off _; rfl
  | succ fuel ih =>
    intro off hoff
    by_cases hstop : file.length ≤ off
    · have hdrop : file.drop off = [] := List.drop_eq_nil_of_le hstop
      have hoffeq : off = file.length := Nat.le_antisymm hoff hstop
      rw [hdrop, hoffeq, readerRun_stop]
      simp [readerRunS]
    · have hdropne : file.drop off ≠ [] := by
        intro h
        exact hstop (List.drop_eq_nil_iff.mp h)
      simp only [readerRun, readerNext, readerRunS]
      rw [if_neg hstop, if_neg hdropne]
      by_cases hsmall : ((file.drop off).take B).length < B
      · rw [if_pos hsmall, if_pos hsmall]
        simp [readerRun_stop]
      · rw [if_neg hsmall, if_neg hsmall]
        have hBle : B ≤ file.length - off := by
          have : ((file.drop off).take B).length = min B (file.length - off) := by
            simp
          rcases Nat.lt_or_ge (file.length - off) B with hlt | hge
          · exfalso
            apply hsmall
            rw [this]
            omega
          · exact hge
        cases hsl : splitlinesL ((file.drop off).take B) with
        | nil => simp
        | cons a l =>
          simp only []
          by_cases herr : (a :: l).dropLast = [] ∧ (a :: l).getLastD [] ≠ []
          · rw [if_pos herr, if_pos herr]
          · rw [if_neg herr, if_neg herr]
            by_cases hclean : ((file.drop off).take B).getLast? = some '\n'
            · rw [if_pos hclean, if_pos hclean]
              have hrec : readerRun file B fuel (off + B) = readerRunS B fuel (file.drop (off + B)) :=
                ih (off + B) (by omega)
              have hdd : (file.drop off).drop B = file.drop (off + B) := by
                rw [List.drop_drop, Nat.add_comm]
              rw [hdd, ← hrec]
            · rw [if_neg hclean, if_neg hclean]
              have hllmem : (a :: l).getLastD [] ∈ splitlinesL ((file.drop off).take B) := by
                rw [hsl]
                exact getLastD_mem _ _ (by simp)
              have hlllen : ((a :: l).getLastD []).length ≤ B := by
                have h1 := mem_sl_length_le ((file.drop off).take B).length _ (Nat.le_refl _) _ hllmem
                have h2 : ((file.drop off).take B).length = min B (file.length - off) := by
                  simp
                omega
              have hrec : readerRun file B fuel (off + B - ((a :: l).getLastD []).length) =
                  readerRunS B fuel (file.drop (off + B - ((a :: l).getLastD []).length)) :=
                ih _ (by omega)
              have hdd : (file.drop off).drop (B - ((a :: l).getLastD []).length) =
                  file.drop (off + B - ((a :: l).getLastD []).length) := by
                rw [List.drop_drop]
                congr 1
                omega
              rw [hdd, ← hrec]

/-! ## The oversize error occurs exactly on files with an oversize line -/

theorem runS_oversize_iff : ∀ (fuel B : Nat) (s : Str), 1 ≤ B → s.length < fuel →
    ((readerRunS B fuel s).2 = some .oversize ↔ existsOversize B s = true) := by
  intro fuel
  induction fuel with
  | zero => intro B s _ hlen; omega
  | succ fuel ih =>
    intro B s hB hlen
    by_cases hs : s = []
    · subst hs
      simp [readerRunS, eo_nil]
    · simp only [readerRunS]
      rw [if_neg hs]
      by_cases hsmall : (s.take B).length < B
      · rw [if_pos hsmall]
        have hslen : s.length < B := by
          have hm : (s.take B).length = min B s.length := by simp
          omega
        rw [eo_small s.length s B (Nat.le_refl _) hslen]
        simp
      · rw [if_neg hsmall]
        have hBs : B ≤ s.length := by
          have hm : (s.take B).length = min B s.length := by simp
          omega
        have hclen : (s.take B).length = B := by
          simp
          omega
        have hchne : s.take B ≠ [] := by
          intro h
          rw [h] at hclen
          simp at hclen
          omega
        cases hsl : splitlinesL (s.take B) with
        | nil => exact absurd ((splitlinesL_eq_nil_iff _).mp hsl) hchne
        | cons a l =>
          simp only []
          by_cases herr : (a :: l).dropLast = [] ∧ (a :: l).getLastD [] ≠ []
          · rw [if_pos herr]
            have heos : existsOversize B s = true := by
              apply eo_of_window_err B s hB hBs
              apply (window_err_iff B (s.take B) hclen hB).mp
              rw [hsl]
              exact herr
            simp [heos]
          · rw [if_neg herr]
            have herr' : ¬ (B ≤ ((s.take B).takeWhile isNotNl).length + 1 ∧
                (s.take B).takeWhile isNotNl ≠ []) := by
              intro hcond
              apply herr
              have := (window_err_iff B (s.take B) hclen hB).mpr hcond
              rw [hsl] at this
              exact this
            by_cases hclean : (s.take B).getLast? = some '\n'
            · rw [if_pos hclean]
              have hdeq : s = s.take B ++ s.drop B := (List.take_append_drop B s).symm
              have heo : existsOversize B s =
                  (existsOversize B (s.take B) || existsOversize B (s.drop B)) := by
                conv_lhs => rw [hdeq]
                exact eo_split (s.take B).length _ _ B (Nat.le_refl _) hchne hclean
              have heogood : existsOversize B (s.take B) = false := by
                apply eo_false_of_short (s.take B).length _ B (Nat.le_refl _) hB
                exact window_lines_short B (s.take B) hclen hclean herr'
              have hrec := ih B (s.drop B) hB (by
                simp only [List.length_drop]
                omega)
              simp only []
              rw [heo, heogood]
              simpa using hrec
            · rw [if_neg hclean]
              have hhasnl : ((s.take B).takeWhile isNotNl).length < (s.take B).length := by
                rcases Nat.lt_or_ge ((s.take B).takeWhile isNotNl).length (s.take B).length
                  with h | h
                · exact h
                · exfalso
                  have heqlen : ((s.take B).takeWhile isNotNl).length = (s.take B).length :=
                    Nat.le_antisymm (tw_length_le isNotNl _) h
                  have hself := takeWhile_eq_self_of_len isNotNl _ heqlen
                  apply herr'
                  constructor
                  · rw [heqlen, hclen]
                    omega
                  · rw [hself]
                    exact hchne
              obtain ⟨good, lp, hcdecomp, hgoodne, hgoodnl, hlpne, hlpall, hslc, hlastd, hdropl⟩ :=
                chunk_decomp_notnl (s.take B) hchne hclean hhasnl
              rw [hsl] at hlastd
              have hlplen : 1 ≤ lp.length := by
                cases lp with
                | nil => exact absurd rfl hlpne
                | cons x xs => simp
              have hlen_good : good.length + lp.length = B := by
                have := congrArg List.length hcdecomp
                simp only [List.length_append] at this
                omega
              have hdeq : s = s.take B ++ s.drop B := (List.take_append_drop B s).symm
              have hsdecomp : s = good ++ (lp ++ s.drop B) := by
                conv_lhs => rw [hdeq, hcdecomp]
                rw [List.append_assoc]
              have hdropadv : s.drop (B - ((a :: l).getLastD []).length) = lp ++ s.drop B := by
                rw [hlastd]
                have hbl : B - lp.length = good.length := by omega
                rw [hbl]
                conv_lhs => rw [hsdecomp]
                exact List.drop_left good _
              have heo : existsOversize B s =
                  (existsOversize B good || existsOversize B (lp ++ s.drop B)) := by
                conv_lhs => rw [hsdecomp]
                exact eo_split good.length _ _ B (Nat.le_refl _) hgoodne hgoodnl
              have heogood : existsOversize B good = false := by
                apply eo_false_of_short good.length _ B (Nat.le_refl _) hB
                intro x hx
                right
                have := mem_sl_term_le good.length good (Nat.le_refl _) hgoodnl x hx
                omega
              have hgood1 : 1 ≤ good.length := by
                cases good with
                | nil => exact absurd rfl hgoodne
                | cons x xs => simp
              have hrec := ih B (lp ++ s.drop B) hB (by
                have h1 : (lp ++ s.drop B).length = lp.length + (s.length - B) := by
                  simp
                omega)
              simp only []
              rw [hdropadv, heo, heogood]
              simpa using hrec

/-! ## The yielded lines form a subsequence of the lines of the file -/

theorem runS_flatten_sublist : ∀ (fuel B : Nat) (s : Str), s.length < fuel →
    ((readerRunS B fuel s).1.flatten).Sublist (splitlinesL s) := by
  intro fuel
  induction fuel with
  | zero => intro B s hlen; omega
  | succ fuel ih =>
    intro B s hlen
    by_cases hs : s = []
    · subst hs
      simp [readerRunS, splitlinesL_nil]
    · simp only [readerRunS]
      rw [if_neg hs]
      by_cases hsmall : (s.take B).length < B
      · rw [if_pos hsmall]
        have hslen : s.length < B := by
          have hm : (s.take B).length = min B s.length := by simp
          omega
        have hts : s.take B = s := List.take_of_length_le (by omega)
        simp [hts]
      · rw [if_neg hsmall]
        have hBs : B ≤ s.length := by
          have hm : (s.take B).length = min B s.length := by simp
          omega
        have hclen : (s.take B).length = B := by
          simp
          omega
        cases hsl : splitlinesL (s.take B) with
        | nil => simp
        | cons a l =>
          have hchne : s.take B ≠ [] := by
            intro h
            rw [h, splitlinesL_nil] at hsl
            simp at hsl
          have hB : 1 ≤ B := by
            have : 0 < (s.take B).length := List.length_pos.mpr hchne
            omega
          simp only []
          by_cases herr : (a :: l).dropLast = [] ∧ (a :: l).getLastD [] ≠ []
          · rw [if_pos herr]
            simp
          · rw [if_neg herr]
            by_cases hclean : (s.take B).getLast? = some '\n'
            · rw [if_pos hclean]
              have hdeq : s = s.take B ++ s.drop B := (List.take_append_drop B s).symm
              have hsplit : splitlinesL s = splitlinesL (s.take B) ++ splitlinesL (s.drop B) := by
                conv_lhs => rw [hdeq]
                exact sl_split (s.take B).length _ _ (Nat.le_refl _) hchne hclean
              have hrec := ih B (s.drop B) (by
                simp only [List.length_drop]
                omega)
              simp only [List.flatten_cons]
              rw [hsplit, ← hsl]
              exact (List.dropLast_sublist _).append hrec
            · rw [if_neg hclean]
              have hhasnl : ((s.take B).takeWhile isNotNl).length < (s.take B).length := by
                rcases Nat.lt_or_ge ((s.take B).takeWhile isNotNl).length (s.take B).length
                  with h | h
                · exact h
                · exfalso
                  have heqlen : ((s.take B).takeWhile isNotNl).length = (s.take B).length :=
                    Nat.le_antisymm (tw_length_le isNotNl _) h
                  have hself := takeWhile_eq_self_of_len isNotNl _ heqlen
                  apply herr
                  rw [← hsl]
                  apply (window_err_iff B (s.take B) hclen hB).mpr
                  constructor
                  · rw [heqlen, hclen]
                    omega
                  · rw [hself]
                    exact hchne
              obtain ⟨good, lp, hcdecomp, hgoodne, hgoodnl, hlpne, hlpall, hslc, hlastd, hdropl⟩ :=
                chunk_decomp_notnl (s.take B) hchne hclean hhasnl
              rw [hsl] at hlastd hdropl
              have hlplen : 1 ≤ lp.length := by
                cases lp with
                | nil => exact absurd rfl hlpne
                | cons x xs => simp
              have hgood1 : 1 ≤ good.length := by
                cases good with
                | nil => exact absurd rfl hgoodne
                | cons x xs => simp
              have hlen_good : good.length + lp.length = B := by
                have := congrArg List.length hcdecomp
                simp only [List.length_append] at this
                omega
              have hdeq : s = s.take B ++ s.drop B := (List.take_append_drop B s).symm
              have hsdecomp : s = good ++ (lp ++ s.drop B) := by
                conv_lhs => rw [hdeq, hcdecomp]
                rw [List.append_assoc]
              have hdropadv : s.drop (B - ((a :: l).getLastD []).length) = lp ++ s.drop B := by
                rw [hlastd]
                have hbl : B - lp.length = good.length := by omega
                rw [hbl]
                conv_lhs => rw [hsdecomp]
                exact List.drop_left good _
              have hsplit : splitlinesL s = splitlinesL good ++ splitlinesL (lp ++ s.drop B) := by
                conv_lhs => rw [hsdecomp]
                exact sl_split good.length _ _ (Nat.le_refl _) hgoodne hgoodnl
              have hrec := ih B (lp ++ s.drop B) (by
                have h1 : (lp ++ s.drop B).length = lp.length + (s.length - B) := by
                  simp
                omega)
              simp only [List.flatten_cons]
              rw [hdropadv, hsplit, hdropl]
              exact (List.Sublist.refl _).append hrec

theorem bufferedRead_eq_runS (file : Str) (M : Nat) :
    bufferedRead file M = readerRunS (M / 3) (file.length + 1) file := by
  unfold bufferedRead
  rw [readerRun_eq_runS file (M / 3) (file.length + 1) 0 (Nat.zero_le _)]
  rfl

theorem bufferedRead_oversize_iff (file : Str) (M : Nat) (h : 3 ≤ M) :
    ((bufferedRead file M).2 = some ReaderErr.oversize ↔ existsOversize (M / 3) file = true) := by
  rw [bufferedRead_eq_runS]
  exact runS_oversize_iff (file.length + 1) (M / 3) file
    ((Nat.one_le_div_iff (by norm_num)).mpr h) (Nat.lt_succ_self _)

theorem bufferedRead_flatten_sublist (file : Str) (M : Nat) :
    ((bufferedRead file M).1.flatten).Sublist (splitlinesL file) := by
  rw [bufferedRead_eq_runS]
  exact runS_flatten_sublist (file.length + 1) (M / 3) file (Nat.lt_succ_self _)

/-! ## Claim C1 and claim C9 -/

/-- C1: the buffered line reader is claimed to yield, over any file in which
no single line exceeds the read size M/3, batches whose in-order
concatenation equals splitlines of the whole file, every batch non-empty.
The code violates this: on the 12-byte file of three 3-byte lines with
M = 24 (read size 8) the first window ends exactly on a linefeed, the reader
emits only the window lines before the last, yet advances the offset past
the whole window, silently losing the line def.  This theorem evaluates the
model at that failing input: the yielded batches concatenate to two of the
three lines even though every line is far below the read size. -/
theorem claim_C1_code_bug :
    bufferedRead (lit "abc\ndef\nxyz\n") 24 = ([[lit "abc"], [lit "xyz"]], none) ∧
    splitlinesL (lit "abc\ndef\nxyz\n") = [lit "abc", lit "def", lit "xyz"] ∧
    (∀ l ∈ splitlinesL (lit "abc\ndef\nxyz\n"), l.length < 24 / 3) ∧
    (bufferedRead (lit "abc\ndef\nxyz\n") 24).1.flatten ≠
      splitlinesL (lit "abc\ndef\nxyz\n") := by
  decide

/-- C9: the claim states the reader fails with the oversize error exactly
when a read would emit an empty batch with a non-empty trailing piece, and
glosses this as exactly when a single line exceeds the read size M/3.  The
gloss is wrong: the 3-byte file with the single 2-byte line ab, read with
M = 9 (read size 3), raises the oversize error although its only line does
not exceed, or even reach, the read size — the window holds the line and its
terminator and nothing else, so the split has no complete-line part. -/
theorem claim_C9_counterexample :
    (bufferedRead (lit "ab\n") 9).2 = some ReaderErr.oversize ∧
    splitlinesL (lit "ab\n") = [lit "ab"] ∧ (lit "ab").length + 1 ≤ 9 / 3 := by
  decide

/-- C9 (amended): the reader raises the oversize ValueError exactly when the
file has a non-empty line whose byte span, the content together with its
linefeed terminator when one is present, is at least the read size M/3; the
erroring read emits nothing.  existsOversize states exactly that span
condition line by line. -/
theorem claim_C9_amended (file : Str) (M : Nat) (h : 3 ≤ M) :
    ((bufferedRead file M).2 = some ReaderErr.oversize ↔
      existsOversize (M / 3) file = true) :=
  bufferedRead_oversize_iff file M h

/-- C9 witness: the amended theorem applied at the concrete file abcd
terminated by a linefeed with M = 9. -/
theorem claim_C9_witness :
    3 ≤ 9 ∧ (bufferedRead (lit "abcd\n") 9).2 = some ReaderErr.oversize :=
  ⟨by norm_num, (claim_C9_amended (lit "abcd\n") 9 (by norm_num)).mpr (by decide)⟩

/-! ## Claim C4: field-count normalization -/

/-- C4: for every tokenized line, normalization yields a full record exactly
when the token count is 24, 25, or 26; 24 appends the dash sentinel once as
the missing trailing field, 25 is taken as-is, 26 discards the final token;
any other count produces no record and the slow reducer then emits a
diagnostic of the line category and drops the line. -/
theorem claim_C4_normalization (parsed : List Str) :
    (parsed.length = 24 → getFullLogLine parsed = some (parsed ++ [lit "-"])) ∧
    (parsed.length = 25 → getFullLogLine parsed = some parsed) ∧
    (parsed.length = 26 → getFullLogLine parsed = some (parsed.take 25)) ∧
    ((getFullLogLine parsed).isSome ↔
      (parsed.length = 24 ∨ parsed.length = 25 ∨ parsed.length = 26)) ∧
    (∀ (rawLine operationType : Str) (excludedIps : Str → Bool) (handler : Str → Str),
      parseS3LogLine rawLine = .ok parsed → getFullLogLine parsed = none →
      reduceRawS3LogLine rawLine operationType excludedIps handler = ([lit "line"], .drop)) := by
  refine ⟨?_, ?_, ?_, ?_, ?_⟩
  · intro h
    simp [getFullLogLine, h]
  · intro h
    simp [getFullLogLine, h]
  · intro h
    simp [getFullLogLine, h]
  · unfold getFullLogLine
    split <;> simp_all
  · intro rawLine operationType excludedIps handler hparse hfull
    simp [reduceRawS3LogLine, hparse, hfull]

/-- C4 witness: the theorem applied to the three-token line a b c, which
parses to three tokens, normalizes to no record, and is dropped with a line
diagnostic. -/
theorem claim_C4_witness :
    reduceRawS3LogLine (lit "a b c") (lit "REST.GET.OBJECT") (fun _ => false)
      dandiObjectKeyHandler = ([lit "line"], .drop) :=
  (claim_C4_normalization [lit "a", lit "b", lit "c"]).2.2.2.2 _ _ _ _ (by rfl) (by decide)

/-! ## Claim C5: slow-path validation and filter policy -/

/-- C5: on the slow path, for every line that normalizes to a full record, a
non-numeric status code or an operation outside the known registry yields a
line diagnostic and a drop; a timezone other than +0000 yields a line
diagnostic while the reduction continues through the remaining stage, which
emits no further diagnostics; and the policy filters, a status not starting
with the digit 2, an operation other than the requested one, or an excluded
IP, drop the line through that stage, silently when the timezone was
normal. -/
theorem claim_C5_slow_path (rawLine operationType : Str) (excludedIps : Str → Bool)
    (handler : Str → Str) (parsed full : List Str)
    (hparse : parseS3LogLine rawLine = .ok parsed)
    (hfull : getFullLogLine parsed = some full) :
    (¬ pyIsDigit (fll_http_status_code full) →
      reduceRawS3LogLine rawLine operationType excludedIps handler = ([lit "line"], .drop)) ∧
    (pyIsDigit (fll_http_status_code full) → ¬ isOperationTypeKnown (fll_operation full) →
      reduceRawS3LogLine rawLine operationType excludedIps handler = ([lit "line"], .drop)) ∧
    (pyIsDigit (fll_http_status_code full) → isOperationTypeKnown (fll_operation full) →
      reduceRawS3LogLine rawLine operationType excludedIps handler =
        ((if lastN 5 (fll_timestamp full) ≠ lit "+0000" then [lit "line"] else []),
          finishReduce full operationType excludedIps handler)) ∧
    (((fll_http_status_code full).headD ' ' ≠ '2' ∨ fll_operation full ≠ operationType ∨
        excludedIps (fll_ip_address full) = true) →
      finishReduce full operationType excludedIps handler = .drop) := by
  refine ⟨?_, ?_, ?_, ?_⟩
  · intro hd
    simp [reduceRawS3LogLine, hparse, hfull, hd]
  · intro hd hop
    simp [reduceRawS3LogLine, hparse, hfull, hd, hop]
  · intro hd hop
    simp [reduceRawS3LogLine, hparse, hfull, hd, hop]
  · intro hpol
    unfold finishReduce
    by_cases h1 : (fll_http_status_code full).headD ' ' ≠ '2'
    · rw [if_pos h1]
    · rw [if_neg h1]
      by_cases h2 : fll_operation full ≠ operationType
      · rw [if_pos h2]
      · rw [if_neg h2]
        have h3 : excludedIps (fll_ip_address full) = true := by tauto
        rw [if_pos h3]

/-- C5 witness: the unknown-operation conjunct applied to a concrete
25-field line carrying REST.GET.NOTATHING, dropped with a line
diagnostic. -/
theorem claim_C5_witness :
    reduceRawS3LogLine
      (lit "o b [01/Jan/2020:10:00:00 +0000] 1.2.3.4 - r REST.GET.NOTATHING k \"u\" 200 - 7 - - - \"-\" \"ua\" - h s c a e t arn")
      (lit "REST.GET.OBJECT") (fun _ => false) dandiObjectKeyHandler = ([lit "line"], .drop) :=
  (claim_C5_slow_path _ _ _ _
      [lit "o", lit "b", lit "01/Jan/2020:10:00:00 +0000", lit "1.2.3.4", lit "-", lit "r",
       lit "REST.GET.NOTATHING", lit "k", lit "u", lit "200", lit "-", lit "7", lit "-", lit "-",
       lit "-", lit "-", lit "ua", lit "-", lit "h", lit "s", lit "c", lit "a", lit "e", lit "t",
       lit "arn"]
      [lit "o", lit "b", lit "01/Jan/2020:10:00:00 +0000", lit "1.2.3.4", lit "-", lit "r",
       lit "REST.GET.NOTATHING", lit "k", lit "u", lit "200", lit "-", lit "7", lit "-", lit "-",
       lit "-", lit "-", lit "ua", lit "-", lit "h", lit "s", lit "c", lit "a", lit "e", lit "t",
       lit "arn"]
      (by rfl) (by decide)).2.1 (by decide) (by decide)

/-! ## Claim C6: fast-path post-URI validation -/

/-- C6: the claim states that at the post-URI validation step a status not
starting with the digit 2 is dropped.  The code drops only a numeric
three-digit status outside the 2xx block: on this line the status token is
the four-digit 4040, which does not start with 2, yet the fast path neither
drops the line nor hands it to the slow path, and instead emits a reduced
row for it. -/
theorem claim_C6_counterexample :
    (pySplitSpace ((pySplitOn (lit "\" ")
        (lit "owner dandiarchive [01/Jan/2020:10:00:00 +0000] 192.0.2.1 - req1 REST.GET.OBJECT blobs/abc \"GET /blobs/abc HTTP/1.1\" 4040 - 123 123 10 5 \"-\" \"ua\" - host sigv4 suite auth endpoint TLSv1.2 arn")).getD 1 [])).headD []
      = lit "4040" ∧
    (lit "4040").headD ' ' ≠ '2' ∧
    fastDandiReduceRawS3LogLine
      (lit "owner dandiarchive [01/Jan/2020:10:00:00 +0000] 192.0.2.1 - req1 REST.GET.OBJECT blobs/abc \"GET /blobs/abc HTTP/1.1\" 4040 - 123 123 10 5 \"-\" \"ua\" - host sigv4 suite auth endpoint TLSv1.2 arn")
      (lit "REST.GET.OBJECT") (fun _ => false) =
      ([], some (lit "2020-01-01T10:00:00\t192.0.2.1\tblobs/abc\t123\n")) := by
  decide

/-- C6 (amended): for every line reaching the post-URI validation step of
the fast path, the line is dropped silently exactly when the status token is
numeric, of length three, and does not start with the digit 2; otherwise,
when the post-quote block is not exactly seven tokens or the status or the
bytes-sent token is non-numeric, the line is handed to the slow path through
the fallback wrapper. -/
theorem claim_C6_amended (rawLine operationType : Str) (excludedIps : Str → Bool)
    (ip fullObjectKey postQuote bytesSent objectKey : Str)
    (h4 : (pySplitSpace rawLine).get? 4 = some ip)
    (hexc : excludedIps ip = false)
    (h7 : (pySplitSpace rawLine).get? 7 = some operationType)
    (h8 : (pySplitSpace rawLine).get? 8 = some fullObjectKey)
    (hkc : (if (pySplitOn (lit "/") fullObjectKey).headD [] = lit "blobs" then some fullObjectKey
            else if (pySplitOn (lit "/") fullObjectKey).headD [] = lit "zarr" then
              some (pyJoin (lit "/") ((pySplitOn (lit "/") fullObjectKey).take 2))
            else none) = some objectKey)
    (hpq : (pySplitOn (lit "\" ") rawLine).get? 1 = some postQuote)
    (hb2 : (pySplitSpace postQuote).get? 2 = some bytesSent) :
    (pyIsDigit ((pySplitSpace postQuote).headD []) ∧
        ((pySplitSpace postQuote).headD []).length = 3 ∧
        ((pySplitSpace postQuote).headD []).headD ' ' ≠ '2' →
      fastDandiReduceRawS3LogLine rawLine operationType excludedIps = ([], none)) ∧
    (¬ (pyIsDigit ((pySplitSpace postQuote).headD []) ∧
        ((pySplitSpace postQuote).headD []).length = 3 ∧
        ((pySplitSpace postQuote).headD []).headD ' ' ≠ '2') →
      ((pySplitSpace postQuote).length ≠ 7 ∨ ¬ pyIsDigit ((pySplitSpace postQuote).headD []) ∨
        ¬ pyIsDigit bytesSent) →
      fastDandiReduceRawS3LogLine rawLine operationType excludedIps =
        fastFallbackToSlow rawLine operationType excludedIps) := by
  constructor
  · intro hcond
    simp only [fastDandiReduceRawS3LogLine, h4, hexc, h7, h8, hpq, hb2, hkc]
    simp only [Bool.false_eq_true, if_false, ne_eq, not_true_eq_false, if_false]
    rw [if_pos hcond]
  · intro hcond1 hcond2
    simp only [fastDandiReduceRawS3LogLine, h4, hexc, h7, h8, hpq, hb2, hkc]
    simp only [Bool.false_eq_true, if_false, ne_eq, not_true_eq_false, if_false]
    rw [if_neg hcond1, if_pos hcond2]

/-- C6 witness: the drop conjunct applied to the same line with the
three-digit status 404, which the fast path drops silently. -/
theorem claim_C6_witness :
    fastDandiReduceRawS3LogLine
      (lit "owner dandiarchive [01/Jan/2020:10:00:00 +0000] 192.0.2.1 - req1 REST.GET.OBJECT blobs/abc \"GET /blobs/abc HTTP/1.1\" 404 - 123 123 10 5 \"-\" \"ua\" - host sigv4 suite auth endpoint TLSv1.2 arn")
      (lit "REST.GET.OBJECT") (fun _ => false) = ([], none) :=
  (claim_C6_amended _ _ _ (lit "192.0.2.1") (lit "blobs/abc")
      (lit "404 - 123 123 10 5 \"-") (lit "123") (lit "blobs/abc")
      (by rfl) (by rfl) (by rfl) (by rfl) (by rfl) (by rfl) (by rfl)).1 (by decide)

/-! ## Claim C7: fast-path timestamp parsing -/

/-- C7: the claim states the emitted timestamp parses the concatenation of
the space-split tokens at indices 2 and 3.  The slice in the code is the
one-element slice at index 2: parsing the concatenation of both tokens with
the bracketed format always fails on the trailing timezone characters, so
under the claimed description this line could emit nothing, yet the code
emits a row whose timestamp comes from token 2 alone. -/
theorem claim_C7_counterexample :
    fastDandiReduceRawS3LogLine
      (lit "owner dandiarchive [01/Jan/2020:10:00:00 +0000] 192.0.2.1 - req1 REST.GET.OBJECT blobs/abc/def/XYZ \"GET /blobs/abc/def/XYZ HTTP/1.1\" 200 - 123 123 10 5 \"-\" \"ua\" - host sigv4 suite auth endpoint TLSv1.2 arn")
      (lit "REST.GET.OBJECT") (fun _ => false) =
      ([], some (lit "2020-01-01T10:00:00\t192.0.2.1\tblobs/abc/def/XYZ\t123\n")) ∧
    (pySplitSpace
      (lit "owner dandiarchive [01/Jan/2020:10:00:00 +0000] 192.0.2.1 - req1 REST.GET.OBJECT blobs/abc/def/XYZ \"GET /blobs/abc/def/XYZ HTTP/1.1\" 200 - 123 123 10 5 \"-\" \"ua\" - host sigv4 suite auth endpoint TLSv1.2 arn")).getD 2 []
      = lit "[01/Jan/2020:10:00:00" ∧
    (pySplitSpace
      (lit "owner dandiarchive [01/Jan/2020:10:00:00 +0000] 192.0.2.1 - req1 REST.GET.OBJECT blobs/abc/def/XYZ \"GET /blobs/abc/def/XYZ HTTP/1.1\" 200 - 123 123 10 5 \"-\" \"ua\" - host sigv4 suite auth endpoint TLSv1.2 arn")).getD 3 []
      = lit "+0000]" ∧
    strptimeBracketDmbY (lit "[01/Jan/2020:10:00:00" ++ lit "+0000]") = none := by
  decide

theorem joinSlice23_eq_getD (xs : List Str) (h : 3 ≤ xs.length) :
    joinSlice23 xs = xs.getD 2 [] := by
  rcases xs with _ | ⟨a, _ | ⟨b, _ | ⟨c, rest⟩⟩⟩ <;> simp_all [joinSlice23]

/-- C7 (amended): for every line that passes the fast-path status and
bytes-sent checks, the emitted timestamp is obtained by parsing the single
space-split token at index 2, the one-element slice of the source, with the
literal bracketed format, and rendering it in ISO form; the timezone token
at index 3 never enters the parse. -/
theorem claim_C7_amended (rawLine operationType : Str) (excludedIps : Str → Bool)
    (ip fullObjectKey postQuote bytesSent objectKey : Str)
    (h4 : (pySplitSpace rawLine).get? 4 = some ip)
    (hexc : excludedIps ip = false)
    (h7 : (pySplitSpace rawLine).get? 7 = some operationType)
    (h8 : (pySplitSpace rawLine).get? 8 = some fullObjectKey)
    (hkc : (if (pySplitOn (lit "/") fullObjectKey).headD [] = lit "blobs" then some fullObjectKey
            else if (pySplitOn (lit "/") fullObjectKey).headD [] = lit "zarr" then
              some (pyJoin (lit "/") ((pySplitOn (lit "/") fullObjectKey).take 2))
            else none) = some objectKey)
    (hpq : (pySplitOn (lit "\" ") rawLine).get? 1 = some postQuote)
    (hb2 : (pySplitSpace postQuote).get? 2 = some bytesSent)
    (hdigS : pyIsDigit ((pySplitSpace postQuote).headD []) = true)
    (hdigB : pyIsDigit bytesSent = true)
    (hblock : (pySplitSpace postQuote).length = 7)
    (hnotdrop : ((pySplitSpace postQuote).headD []).length = 3 →
      ((pySplitSpace postQuote).headD []).headD ' ' = '2') :
    fastDandiReduceRawS3LogLine rawLine operationType excludedIps =
      (match strptimeBracketDmbY ((pySplitSpace rawLine).getD 2 []) with
       | none => ([lit "fast_line_reduction"], none)
       | some dt => ([], some (mkReducedRow (isoformat dt) ip objectKey bytesSent))) := by
  have hlen : 3 ≤ (pySplitSpace rawLine).length := by
    obtain ⟨hlt, _⟩ := List.get?_eq_some.mp h4
    omega
  have hj : joinSlice23 (pySplitSpace rawLine) = (pySplitSpace rawLine).getD 2 [] :=
    joinSlice23_eq_getD _ hlen
  have hcond1 : ¬ (pyIsDigit ((pySplitSpace postQuote).headD []) ∧
      ((pySplitSpace postQuote).headD []).length = 3 ∧
      ((pySplitSpace postQuote).headD []).headD ' ' ≠ '2') := by
    rintro ⟨_, hl3, hne2⟩
    exact hne2 (hnotdrop hl3)
  have hcond2 : ¬ ((pySplitSpace postQuote).length ≠ 7 ∨
      ¬ pyIsDigit ((pySplitSpace postQuote).headD []) ∨ ¬ pyIsDigit bytesSent) := by
    rintro (h | h | h)
    · exact h hblock
    · exact h hdigS
    · exact h hdigB
  simp only [fastDandiReduceRawS3LogLine, h4, hexc, h7, h8, hpq, hb2, hkc]
  simp only [Bool.false_eq_true, if_false, ne_eq, not_true_eq_false, if_false]
  rw [if_neg hcond1, if_neg hcond2, hj]

/-- C7 witness: the amended theorem applied to the happy GET line, emitting
the row whose timestamp is the ISO form of the bracketed token at
index 2. -/
theorem claim_C7_witness :
    fastDandiReduceRawS3LogLine
      (lit "owner dandiarchive [01/Jan/2020:10:00:00 +0000] 192.0.2.1 - req1 REST.GET.OBJECT zarr/ZID/0/1/2 \"GET /zarr/ZID/0/1/2 HTTP/1.1\" 200 - 123 123 10 5 \"-\" \"ua\" - host sigv4 suite auth endpoint TLSv1.2 arn")
      (lit "REST.GET.OBJECT") (fun _ => false) =
      ([], some (lit "2020-01-01T10:00:00\t192.0.2.1\tzarr/ZID\t123\n")) :=
  ((claim_C7_amended _ _ _ (lit "192.0.2.1") (lit "zarr/ZID/0/1/2")
      (lit "200 - 123 123 10 5 \"-") (lit "123") (lit "zarr/ZID")
      (by rfl) (by rfl) (by rfl) (by rfl) (by rfl) (by rfl) (by rfl)
      (by decide) (by decide) (by rfl) (by decide)).trans (by decide))

/-! ## Claim C8: the bytes-sent field of emitted rows -/

theorem ws_false_of_digit (c : Char) (h : c.isDigit = true) : isPyWs c = false := by
  rcases Bool.eq_false_or_eq_true (isPyWs c) with ht | hf
  · exfalso
    simp [isPyWs] at ht
    rcases ht with ((rfl | rfl) | rfl) | rfl <;> exact absurd h (by decide)
  · exact hf

theorem pyInt_digits (s : Str) (h : pyIsDigit s = true) :
    pyInt s = (digitsToNat s).map Int.ofNat := by
  cases s with
  | nil => exact absurd h (by decide)
  | cons c rest =>
    have hall : ∀ x ∈ c :: rest, x.isDigit = true := by
      simp only [pyIsDigit, Bool.and_eq_true, List.all_eq_true] at h
      exact fun x hx => h.2 x hx
    have hc : c.isDigit = true := hall c (by simp)
    have step1 : (c :: rest).dropWhile isPyWs = c :: rest := by
      simp [List.dropWhile_cons, ws_false_of_digit c hc]
    obtain ⟨c2, rest2, hrev⟩ := List.exists_cons_of_ne_nil
      (show (c :: rest).reverse ≠ [] by simp)
    have hc2 : c2.isDigit = true := by
      apply hall
      rw [← List.mem_reverse, hrev]
      simp
    have step2 : (c :: rest).reverse.dropWhile isPyWs = (c :: rest).reverse := by
      rw [hrev]
      simp [List.dropWhile_cons, ws_false_of_digit c2 hc2]
    have hplus : ¬ c = '+' := by
      intro he
      rw [he] at hc
      exact absurd hc (by decide)
    have hminus : ¬ c = '-' := by
      intro he
      rw [he] at hc
      exact absurd hc (by decide)
    have ht : (((c :: rest).dropWhile isPyWs).reverse.dropWhile isPyWs).reverse = c :: rest := by
      rw [step1, step2, List.reverse_reverse]
    unfold pyInt
    rw [ht]
    have hred : (match c :: rest with
        | [] => (none : Option Int)
        | c :: ds =>
          if c = '+' then (digitsToNat ds).map Int.ofNat
          else if c = '-' then (digitsToNat ds).map (fun n => -(Int.ofNat n))
          else (digitsToNat (c :: ds)).map Int.ofNat) =
        (if c = '+' then (digitsToNat rest).map Int.ofNat
         else if c = '-' then (digitsToNat rest).map (fun n => -(Int.ofNat n))
         else (digitsToNat (c :: rest)).map Int.ofNat) := rfl
    rw [hred, if_neg hplus, if_neg hminus]

theorem pyInt_nonneg (s : Str) (v : Int) (hd : pyIsDigit s = true) (hv : pyInt s = some v) :
    0 ≤ v := by
  rw [pyInt_digits s hd] at hv
  cases hN : digitsToNat s with
  | none => rw [hN] at hv; simp at hv
  | some n =>
    rw [hN] at hv
    simp only [Option.map_some', Option.some.injEq] at hv
    rw [← hv]
    exact Int.ofNat_nonneg n

/-- C8: the claim states the emitted bytes_sent is always non-negative with
decimal form equal to the raw field, zero exactly on the dash sentinel.  The
slow path never validates the field: this line carries the raw bytes-sent
token -5, is accepted, and its emitted record carries the negative value
-5. -/
theorem claim_C8_counterexample :
    parseS3LogLine
      (lit "owner dandiarchive [01/Jan/2020:10:00:00 +0000] 192.0.2.1 - req1 REST.GET.OBJECT blobs/abc \"GET /blobs/abc HTTP/1.1\" 200 - -5 123 10 5 \"-\" \"ua\" - host sigv4 suite auth endpoint TLSv1.2 arn") =
      .ok [lit "owner", lit "dandiarchive", lit "01/Jan/2020:10:00:00 +0000", lit "192.0.2.1",
        lit "-", lit "req1", lit "REST.GET.OBJECT", lit "blobs/abc",
        lit "GET /blobs/abc HTTP/1.1", lit "200", lit "-", lit "-5", lit "123", lit "10",
        lit "5", lit "-", lit "ua", lit "-", lit "host", lit "sigv4", lit "suite", lit "auth",
        lit "endpoint", lit "TLSv1.2", lit "arn"] ∧
    fll_bytes_sent [lit "owner", lit "dandiarchive", lit "01/Jan/2020:10:00:00 +0000",
        lit "192.0.2.1", lit "-", lit "req1", lit "REST.GET.OBJECT", lit "blobs/abc",
        lit "GET /blobs/abc HTTP/1.1", lit "200", lit "-", lit "-5", lit "123", lit "10",
        lit "5", lit "-", lit "ua", lit "-", lit "host", lit "sigv4", lit "suite", lit "auth",
        lit "endpoint", lit "TLSv1.2", lit "arn"] = lit "-5" ∧
    reduceRawS3LogLine
      (lit "owner dandiarchive [01/Jan/2020:10:00:00 +0000] 192.0.2.1 - req1 REST.GET.OBJECT blobs/abc \"GET /blobs/abc HTTP/1.1\" 200 - -5 123 10 5 \"-\" \"ua\" - host sigv4 suite auth endpoint TLSv1.2 arn")
      (lit "REST.GET.OBJECT") (fun _ => false) dandiObjectKeyHandler =
      ([], .emit (lit "2020-01-01T10:00:00\t192.0.2.1\tblobs/abc\t-5\n")) ∧
    pyInt (lit "-5") = some (-5) ∧ (-5 : Int) < 0 := by
  refine ⟨by rfl, by decide, by decide, by decide, by decide⟩

/-- C8 (amended): an accepted slow-path line emits the row built from the
integer value of the raw bytes-sent field, with the dash sentinel mapped to
zero and no sign validation; whenever the raw field is a pure digit string
the value is non-negative, as it always is on the fast path, whose emitted
bytes field is the digit-validated raw token itself. -/
theorem claim_C8_amended (full : List Str) (operationType : Str) (excludedIps : Str → Bool)
    (handler : Str → Str) :
    (∀ row, finishReduce full operationType excludedIps handler = .emit row →
      ∃ dt v,
        strptimeDmbY ((fll_timestamp full).take ((fll_timestamp full).length - 6)) = some dt ∧
        ((fll_bytes_sent full = lit "-" ∧ v = 0) ∨
         (fll_bytes_sent full ≠ lit "-" ∧ pyInt (fll_bytes_sent full) = some v)) ∧
        row = mkReducedRow (isoformat dt) (fll_ip_address full)
          (handler (fll_object_key full)) (intToStr v)) ∧
    (∀ (s : Str) (v : Int), pyIsDigit s = true → pyInt s = some v → 0 ≤ v) := by
  constructor
  · intro row h
    unfold finishReduce at h
    by_cases h1 : (fll_http_status_code full).headD ' ' ≠ '2'
    · rw [if_pos h1] at h
      exact absurd h (by simp)
    · rw [if_neg h1] at h
      by_cases h2 : fll_operation full ≠ operationType
      · rw [if_pos h2] at h
        exact absurd h (by simp)
      · rw [if_neg h2] at h
        by_cases h3 : excludedIps (fll_ip_address full) = true
        · rw [if_pos h3] at h
          exact absurd h (by simp)
        · rw [if_neg h3] at h
          have h0 : (match strptimeDmbY ((fll_timestamp full).take ((fll_timestamp full).length - 6)) with
              | none => LineOutcome.raise
              | some dt =>
                if fll_bytes_sent full = lit "-" then
                  LineOutcome.emit (mkReducedRow (isoformat dt) (fll_ip_address full)
                    (handler (fll_object_key full)) (intToStr 0))
                else
                  match pyInt (fll_bytes_sent full) with
                  | none => LineOutcome.raise
                  | some v =>
                    LineOutcome.emit (mkReducedRow (isoformat dt) (fll_ip_address full)
                      (handler (fll_object_key full)) (intToStr v))) = LineOutcome.emit row := h
          clear h
          cases hstrp : strptimeDmbY ((fll_timestamp full).take ((fll_timestamp full).length - 6)) with
          | none =>
            rw [hstrp] at h0
            have h' : LineOutcome.raise = LineOutcome.emit row := h0
            exact absurd h' (by simp)
          | some dt =>
            rw [hstrp] at h0
            have h' : (if fll_bytes_sent full = lit "-" then
                LineOutcome.emit (mkReducedRow (isoformat dt) (fll_ip_address full)
                  (handler (fll_object_key full)) (intToStr 0))
              else
                match pyInt (fll_bytes_sent full) with
                | none => LineOutcome.raise
                | some v =>
                  LineOutcome.emit (mkReducedRow (isoformat dt) (fll_ip_address full)
                    (handler (fll_object_key full)) (intToStr v))) = LineOutcome.emit row := h0
            by_cases hbs : fll_bytes_sent full = lit "-"
            · rw [if_pos hbs] at h'
              simp only [LineOutcome.emit.injEq] at h'
              exact ⟨dt, 0, rfl, Or.inl ⟨hbs, rfl⟩, h'.symm⟩
            · rw [if_neg hbs] at h'
              cases hint : pyInt (fll_bytes_sent full) with
              | none =>
                rw [hint] at h'
                have h'' : LineOutcome.raise = LineOutcome.emit row := h'
                exact absurd h'' (by simp)
              | some v =>
                rw [hint] at h'
                have h'' : LineOutcome.emit (mkReducedRow (isoformat dt) (fll_ip_address full)
                    (handler (fll_object_key full)) (intToStr v)) = LineOutcome.emit row := h'
                simp only [LineOutcome.emit.injEq] at h''
                exact ⟨dt, v, rfl, Or.inr ⟨hbs, rfl⟩, h''.symm⟩
  · exact pyInt_nonneg

/-- C8 witness: the emission conjunct applied to the 25-field record with
the dash sentinel in the bytes-sent field, emitted with the value zero. -/
theorem claim_C8_witness :
    ∃ dt v,
      strptimeDmbY ((fll_timestamp
        [lit "o", lit "b", lit "01/Jan/2020:10:00:00 +0000", lit "1.2.3.4", lit "-", lit "r",
         lit "REST.GET.OBJECT", lit "blobs/k", lit "u", lit "200", lit "-", lit "-", lit "-",
         lit "-", lit "-", lit "-", lit "ua", lit "-", lit "h", lit "s", lit "c", lit "a",
         lit "e", lit "t", lit "arn"]).take ((fll_timestamp
        [lit "o", lit "b", lit "01/Jan/2020:10:00:00 +0000", lit "1.2.3.4", lit "-", lit "r",
         lit "REST.GET.OBJECT", lit "blobs/k", lit "u", lit "200", lit "-", lit "-", lit "-",
         lit "-", lit "-", lit "-", lit "ua", lit "-", lit "h", lit "s", lit "c", lit "a",
         lit "e", lit "t", lit "arn"]).length - 6)) = some dt ∧
      ((fll_bytes_sent
        [lit "o", lit "b", lit "01/Jan/2020:10:00:00 +0000", lit "1.2.3.4", lit "-", lit "r",
         lit "REST.GET.OBJECT", lit "blobs/k", lit "u", lit "200", lit "-", lit "-", lit "-",
         lit "-", lit "-", lit "-", lit "ua", lit "-", lit "h", lit "s", lit "c", lit "a",
         lit "e", lit "t", lit "arn"] = lit "-" ∧ v = 0) ∨
       (fll_bytes_sent
        [lit "o", lit "b", lit "01/Jan/2020:10:00:00 +0000", lit "1.2.3.4", lit "-", lit "r",
         lit "REST.GET.OBJECT", lit "blobs/k", lit "u", lit "200", lit "-", lit "-", lit "-",
         lit "-", lit "-", lit "-", lit "ua", lit "-", lit "h", lit "s", lit "c", lit "a",
         lit "e", lit "t", lit "arn"] ≠ lit "-" ∧ pyInt (fll_bytes_sent
        [lit "o", lit "b", lit "01/Jan/2020:10:00:00 +0000", lit "1.2.3.4", lit "-", lit "r",
         lit "REST.GET.OBJECT", lit "blobs/k", lit "u", lit "200", lit "-", lit "-", lit "-",
         lit "-", lit "-", lit "-", lit "ua", lit "-", lit "h", lit "s", lit "c", lit "a",
         lit "e", lit "t", lit "arn"]) = some v)) ∧
      lit "2020-01-01T10:00:00\t1.2.3.4\tblobs/k\t0\n" =
        mkReducedRow (isoformat dt) (fll_ip_address
        [lit "o", lit "b", lit "01/Jan/2020:10:00:00 +0000", lit "1.2.3.4", lit "-", lit "r",
         lit "REST.GET.OBJECT", lit "blobs/k", lit "u", lit "200", lit "-", lit "-", lit "-",
         lit "-", lit "-", lit "-", lit "ua", lit "-", lit "h", lit "s", lit "c", lit "a",
         lit "e", lit "t", lit "arn"])
          (dandiObjectKeyHandler (fll_object_key
        [lit "o", lit "b", lit "01/Jan/2020:10:00:00 +0000", lit "1.2.3.4", lit "-", lit "r",
         lit "REST.GET.OBJECT", lit "blobs/k", lit "u", lit "200", lit "-", lit "-", lit "-",
         lit "-", lit "-", lit "-", lit "ua", lit "-", lit "h", lit "s", lit "c", lit "a",
         lit "e", lit "t", lit "arn"])) (intToStr v) :=
  (claim_C8_amended
      [lit "o", lit "b", lit "01/Jan/2020:10:00:00 +0000", lit "1.2.3.4", lit "-", lit "r",
       lit "REST.GET.OBJECT", lit "blobs/k", lit "u", lit "200", lit "-", lit "-", lit "-",
       lit "-", lit "-", lit "-", lit "ua", lit "-", lit "h", lit "s", lit "c", lit "a",
       lit "e", lit "t", lit "arn"]
      (lit "REST.GET.OBJECT") (fun _ => false) dandiObjectKeyHandler).1
    (lit "2020-01-01T10:00:00\t1.2.3.4\tblobs/k\t0\n") (by decide)

/-! ## Claim C2: the written reduced file -/

theorem isPrefixOf_append_self (a b : Str) : a.isPrefixOf (a ++ b) = true := by
  induction a with
  | nil => cases b <;> rfl
  | cons c a' ih => simp [List.isPrefixOf, ih]

theorem collectRows_ok (lineReduce : Str → List Str × LineOutcome) :
    ∀ (ls : List Str) (rows : List Str), collectRows lineReduce ls = .ok rows →
      rows = acceptedRows lineReduce ls := by
  intro ls
  induction ls with
  | nil =>
    intro rows h
    have h' : (Except.ok [] : Except Unit (List Str)) = .ok rows := h
    simp only [Except.ok.injEq] at h'
    rw [← h']
    rfl
  | cons l ls ih =>
    intro rows h
    unfold collectRows at h
    cases ho : (lineReduce l).2 with
    | raise =>
      rw [ho] at h
      exact absurd h (by simp)
    | drop =>
      rw [ho] at h
      rw [ih rows h]
      simp [acceptedRows, List.filterMap_cons, ho]
    | emit r =>
      rw [ho] at h
      cases hc : collectRows lineReduce ls with
      | error e =>
        rw [hc] at h
        exact absurd h (by simp [Except.map])
      | ok rows' =>
        rw [hc] at h
        simp only [Except.map, Except.ok.injEq] at h
        rw [← h, ih rows' hc]
        simp [acceptedRows, List.filterMap_cons, ho]

/-- C2: for every raw log file on which the file-level reducer succeeds, the
written reduced file is the header, present exactly when at least one row
was accepted, followed by the accepted rows, which are the reductions of an
in-order subsequence of the raw lines of the file; a file with no accepted
rows is written with zero bytes. -/
theorem claim_C2_file_output (file : Str) (M : Nat)
    (lineReduce : Str → List Str × LineOutcome) (content : Str)
    (h : reduceRawS3Log file M lineReduce = .ok content) :
    (content = (if acceptedRows lineReduce (bufferedRead file M).1.flatten = [] then []
                else headerTSV) ++
        (acceptedRows lineReduce (bufferedRead file M).1.flatten).flatten) ∧
    (acceptedRows lineReduce (bufferedRead file M).1.flatten = [] → content = []) ∧
    (headerTSV.isPrefixOf content = true ↔
      acceptedRows lineReduce (bufferedRead file M).1.flatten ≠ []) ∧
    ∃ srcLines, srcLines.Sublist (splitlinesL file) ∧
      acceptedRows lineReduce (bufferedRead file M).1.flatten =
        acceptedRows lineReduce srcLines := by
  unfold reduceRawS3Log at h
  rcases hbr : bufferedRead file M with ⟨batches, e⟩
  rw [hbr] at h
  cases e with
  | some err =>
    have h' : (Except.error (FileErr.reader err) : Except FileErr Str) = .ok content := h
    exact absurd h' (by simp)
  | none =>
    have h0 : (match collectRows lineReduce batches.flatten with
        | .error _ => (Except.error FileErr.lineException : Except FileErr Str)
        | .ok rows => .ok ((if rows.isEmpty then [] else headerTSV) ++ rows.flatten)) =
        .ok content := h
    cases hcr : collectRows lineReduce batches.flatten with
    | error e2 =>
      rw [hcr] at h0
      exact absurd h0 (by simp)
    | ok rows =>
      rw [hcr] at h0
      simp only [Except.ok.injEq] at h0
      have hrows : rows = acceptedRows lineReduce batches.flatten :=
        collectRows_ok lineReduce _ _ hcr
      dsimp only
      rw [← hrows]
      have hcontent : content = (if rows = [] then [] else headerTSV) ++ rows.flatten := by
        rw [← h0]
        congr 1
        by_cases hre : rows = []
        · simp [hre]
        · simp [hre, List.isEmpty_iff]
      refine ⟨hcontent, ?_, ?_, ?_⟩
      · intro hre
        rw [hcontent, if_pos hre, hre]
        rfl
      · constructor
        · intro hp hre
          rw [hcontent, if_pos hre, hre] at hp
          exact absurd hp (by decide)
        · intro hre
          rw [hcontent, if_neg hre]
          exact isPrefixOf_append_self headerTSV rows.flatten
      · refine ⟨batches.flatten, ?_, hrows⟩
        have := bufferedRead_flatten_sublist file M
        rw [hbr] at this
        exact this

/-- C2 witness: the file holding one happy GET line, reduced with the
DANDI fast path under a 3000-byte budget, is written as the header followed
by the single reduced row. -/
theorem claim_C2_witness :
    headerTSV.isPrefixOf
      (lit "timestamp\tip_address\tobject_key\tbytes_sent\n2020-01-01T10:00:00\t192.0.2.1\tblobs/abc/def/XYZ\t123\n") = true :=
  ((claim_C2_file_output
      (lit "owner dandiarchive [01/Jan/2020:10:00:00 +0000] 192.0.2.1 - req1 REST.GET.OBJECT blobs/abc/def/XYZ \"GET /blobs/abc/def/XYZ HTTP/1.1\" 200 - 123 123 10 5 \"-\" \"ua\" - host sigv4 suite auth endpoint TLSv1.2 arn\n")
      3000 (fastDandiLineReduce (lit "REST.GET.OBJECT") (fun _ => false))
      (lit "timestamp\tip_address\tobject_key\tbytes_sent\n2020-01-01T10:00:00\t192.0.2.1\tblobs/abc/def/XYZ\t123\n")
      (by rfl)).2.2.1).mpr (by decide)

/-! ## Claim C3: batch idempotence by skip-on-exists -/

theorem find?_append_none {α : Type} (a b : List α) (p : α → Bool) (h : a.find? p = none) :
    (a ++ b).find? p = b.find? p := by
  induction a with
  | nil => simp
  | cons x xs ih =>
    cases hp : p x with
    | true => rw [List.find?_cons_of_pos _ hp] at h; simp at h
    | false =>
      rw [List.find?_cons_of_neg _ (by simp [hp])] at h
      rw [List.cons_append, List.find?_cons_of_neg _ (by simp [hp])]
      exact ih h

theorem find?_append_some {α : Type} (a b : List α) (p : α → Bool) (x : α)
    (h : a.find? p = some x) : (a ++ b).find? p = some x := by
  induction a with
  | nil => simp at h
  | cons y ys ih =>
    cases hp : p y with
    | true =>
      rw [List.find?_cons_of_pos _ hp] at h
      rw [List.cons_append, List.find?_cons_of_pos _ hp]
      exact h
    | false =>
      rw [List.find?_cons_of_neg _ (by simp [hp])] at h
      rw [List.cons_append, List.find?_cons_of_neg _ (by simp [hp])]
      exact ih h

theorem lookupArchive_append_of_some (a b : List (Str × Str)) (p : Str) (c : Str)
    (h : lookupArchive a p = some c) : lookupArchive (a ++ b) p = some c := by
  unfold lookupArchive at h ⊢
  cases hf : a.find? (fun e => e.1 = p) with
  | none => rw [hf] at h; simp at h
  | some entry =>
    rw [hf] at h
    rw [find?_append_some a b _ entry hf]
    exact h

theorem runDandiBatchReduce_def (f : Str → Str) (raw red : List (Str × Str)) :
    runDandiBatchReduce f raw red =
      red ++ (raw.filter (fun pr => pyIsDigit (pathStem pr.1) &&
          (lookupArchive red (mirrorReducedName pr.1)).isNone)).map
        (fun pr => (mirrorReducedName pr.1, f pr.2)) := rfl

/-- C3 (spec-modelled): running the batch twice over the same raw archive
produces the same reduced archive as running it once, because enumeration
drops every raw path whose mirror already exists, and a reduced file present
at the start of a batch is never rewritten or appended to by that batch. -/
theorem claim_C3_batch_idempotent (reduceFile : Str → Str) (raw reduced : List (Str × Str)) :
    runDandiBatchReduce reduceFile raw (runDandiBatchReduce reduceFile raw reduced) =
      runDandiBatchReduce reduceFile raw reduced ∧
    (∀ p c, lookupArchive reduced p = some c →
      lookupArchive (runDandiBatchReduce reduceFile raw reduced) p = some c) := by
  constructor
  · have hsel : raw.filter (fun pr => pyIsDigit (pathStem pr.1) &&
        (lookupArchive (runDandiBatchReduce reduceFile raw reduced)
          (mirrorReducedName pr.1)).isNone) = [] := by
      rw [List.filter_eq_nil_iff]
      intro pr hpr hcond
      simp only [Bool.and_eq_true] at hcond
      obtain ⟨hnum, hnone⟩ := hcond
      cases hlk : lookupArchive reduced (mirrorReducedName pr.1) with
      | some c =>
        have h2 : lookupArchive (runDandiBatchReduce reduceFile raw reduced)
            (mirrorReducedName pr.1) = some c := by
          rw [runDandiBatchReduce_def]
          exact lookupArchive_append_of_some reduced _ _ c hlk
        rw [h2] at hnone
        simp at hnone
      | none =>
        have hmem : pr ∈ raw.filter (fun q => pyIsDigit (pathStem q.1) &&
            (lookupArchive reduced (mirrorReducedName q.1)).isNone) := by
          rw [List.mem_filter]
          exact ⟨hpr, by simp [hnum, hlk]⟩
        have hmem2 : (mirrorReducedName pr.1, reduceFile pr.2) ∈
            (raw.filter (fun q => pyIsDigit (pathStem q.1) &&
              (lookupArchive reduced (mirrorReducedName q.1)).isNone)).map
              (fun q => (mirrorReducedName q.1, reduceFile q.2)) :=
          List.mem_map_of_mem _ hmem
        have hsome : ((runDandiBatchReduce reduceFile raw reduced).find?
            (fun e => e.1 = mirrorReducedName pr.1)).isSome := by
          apply List.find?_isSome.mpr
          refine ⟨(mirrorReducedName pr.1, reduceFile pr.2), ?_, by simp⟩
          rw [runDandiBatchReduce_def]
          exact List.mem_append_right _ hmem2
        unfold lookupArchive at hnone
        cases hf : (runDandiBatchReduce reduceFile raw reduced).find?
            (fun e => e.1 = mirrorReducedName pr.1) with
        | none => rw [hf] at hsome; simp at hsome
        | some entry => rw [hf] at hnone; simp at hnone
    rw [runDandiBatchReduce_def reduceFile raw (runDandiBatchReduce reduceFile raw reduced),
      hsel]
    simp
  · intro p c hlk
    exact lookupArchive_append_of_some reduced _ p c hlk

/-- C3 witness: a one-day raw archive whose mirror already exists is left
untouched and a second run changes nothing. -/
theorem claim_C3_witness :
    lookupArchive
      (runDandiBatchReduce (fun _ => lit "X") [(lit "2020/01/01.log", lit "RAW")]
        [(lit "2020/01/01.tsv", lit "OLD")]) (lit "2020/01/01.tsv") = some (lit "OLD") :=
  (claim_C3_batch_idempotent (fun _ => lit "X") [(lit "2020/01/01.log", lit "RAW")]
      [(lit "2020/01/01.tsv", lit "OLD")]).2 (lit "2020/01/01.tsv") (lit "OLD") (by decide)

/-! ## Claim C10: import-time configuration -/

/-- C10: importing the package runs the configuration module first; the
package loads exactly when both IPINFO_CREDENTIALS and IPINFO_HASH_SALT
are set, a missing one raises ValueError naming it with the credentials
checked first, and the base folder is created as an import-time side effect
even on the failing imports. -/
theorem claim_C10_import (env : ImportEnv) :
    ((importPackage env).2.isOk = true ↔
      (env.ipinfoCredentials.isSome = true ∧ env.ipinfoHashSalt.isSome = true)) ∧
    ConfigEffect.mkdirBaseFolder ∈ (importPackage env).1 ∧
    (env.ipinfoCredentials = none →
      (importPackage env).2 = .error (lit "IPINFO_CREDENTIALS")) ∧
    (∀ cred, env.ipinfoCredentials = some cred → env.ipinfoHashSalt = none →
      (importPackage env).2 = .error (lit "IPINFO_HASH_SALT")) := by
  obtain ⟨cred?, salt?⟩ := env
  refine ⟨?_, ?_, ?_, ?_⟩
  · cases cred? <;> cases salt? <;> simp [importPackage, importConfigModule, Except.isOk, Except.toBool]
  · cases cred? <;> cases salt? <;> simp [importPackage, importConfigModule]
  · intro hc
    cases cred? with
    | none => cases salt? <;> rfl
    | some c => simp at hc
  · intro cred hc hs
    cases cred? with
    | none => simp at hc
    | some c =>
      cases salt? with
      | none => rfl
      | some s => simp at hs

/-- C10 witness: with both variables absent the import fails naming the
credentials variable, and the base folder is still created. -/
theorem claim_C10_witness :
    (importPackage ⟨none, none⟩).2 = .error (lit "IPINFO_CREDENTIALS") ∧
    ConfigEffect.mkdirBaseFolder ∈ (importPackage ⟨none, none⟩).1 :=
  ⟨(claim_C10_import ⟨none, none⟩).2.2.1 rfl, (claim_C10_import ⟨none, none⟩).2.1⟩

end DandiS3
